import Mathlib

/-!
Shallow embedding of the mnexium CORE memory/claim substrate
(`src/adapters/postgres/PostgresCoreStore.ts`, `src/server/createCoreServer.ts`,
`src/ai/recallService.ts`, and the extraction service), with proofs settling
the frozen specification claims.

Database rows are modelled as Lean structures, tables as lists of rows, and
each store operation as a pure state transformer translated
statement-by-statement from the SQL in the source.  Timestamps are naturals
(`NOW()` is a parameter of each operation), numeric columns are rationals,
and pgvector cosine similarity `(1 - (a <=> b)) * 100` is an abstract
parameter `sim : Vec → Vec → ℚ` of the operations that use it.
-/

namespace MnxCore

abbrev Vec := List ℚ

/-- Status column of `memories` (CHECK constraint: active | superseded). -/
inductive MemStatus
  | active
  | superseded
deriving DecidableEq, Repr

/-- Status column of `claims` (CHECK constraint: active | retracted). -/
inductive ClaimStatus
  | active
  | retracted
deriving DecidableEq, Repr

/-- Status column of `slot_state` (CHECK: active | superseded | retracted). -/
inductive SlotStatus
  | active
  | superseded
  | retracted
deriving DecidableEq, Repr

/-- A row of the `memories` table (columns the modelled operations touch). -/
structure MemRow where
  id : String
  project_id : String
  subject_id : String
  text : String
  kind : String
  visibility : String
  importance : ℚ
  confidence : ℚ
  is_temporal : Bool
  tags : List String
  embedding : Option Vec
  source_type : String
  status : MemStatus
  superseded_by : Option String
  is_deleted : Bool
  created_at : Nat
deriving DecidableEq, Repr

/-- A row of the `claims` table. -/
structure ClaimRow where
  claim_id : String
  project_id : String
  subject_id : String
  predicate : String
  object_value : String
  slot : String
  claim_type : String
  confidence : ℚ
  importance : ℚ
  tags : List String
  source_memory_id : Option String
  source_observation_id : Option String
  subject_entity : String
  status : ClaimStatus
  asserted_at : Nat
  retracted_at : Option Nat
  retract_reason : Option String
deriving DecidableEq, Repr

/-- A row of the `claim_assertions` table. -/
structure AssertionRow where
  assertion_id : String
  project_id : String
  subject_id : String
  claim_id : String
  memory_id : Option String
  predicate : String
  object_type : String
  value_string : String
  confidence : ℚ
  status : String
deriving DecidableEq, Repr

/-- A row of the `claim_edges` table (UNIQUE on project/from/to/type). -/
structure EdgeRow where
  project_id : String
  subject_id : String
  from_claim_id : String
  to_claim_id : String
  edge_type : String
  weight : ℚ
  reason_code : String
  reason_text : String
deriving DecidableEq, Repr

/-- A row of the `slot_state` table (PRIMARY KEY (project_id, subject_id, slot)). -/
structure SlotRow where
  project_id : String
  subject_id : String
  slot : String
  active_claim_id : Option String
  status : SlotStatus
  replaced_by_claim_id : Option String
  updated_at : Nat
deriving DecidableEq, Repr

/-- The persistent state: one list per table. -/
structure Db where
  memories : List MemRow
  claims : List ClaimRow
  assertions : List AssertionRow
  claim_edges : List EdgeRow
  slot_state : List SlotRow
deriving DecidableEq, Repr

/-- The empty database. -/
def Db.empty : Db := ⟨[], [], [], [], []⟩

/-! ### Numeric helpers (`clampInt` / `clampFloat` from PostgresCoreStore.ts).
`Number(undefined)` is `NaN`, so an absent input is modelled as `none` and
takes the fallback. -/

/-- `clampInt(value, min, max, fallback)`: fallback on non-finite, clamp to
the range, `Math.floor` otherwise. -/
def clampInt (value : Option ℚ) (lo hi fallback : ℤ) : ℤ :=
  match value with
  | none => fallback
  | some n => if n < (lo : ℚ) then lo else if n > (hi : ℚ) then hi else ⌊n⌋

/-- `clampFloat(value, min, max, fallback)`. -/
def clampFloat (value : Option ℚ) (lo hi fallback : ℚ) : ℚ :=
  match value with
  | none => fallback
  | some n => if n < lo then lo else if n > hi then hi else n

/-- JavaScript `a || b` for strings: an absent or empty string falls back. -/
def jsStrOr (s : Option String) (d : String) : String :=
  match s with
  | none => d
  | some v => if v = "" then d else v

/-- `inferSlot(predicate)`: the trimmed predicate. -/
def inferSlot (predicate : String) : String := predicate.trim

/-- `includes` on strings (JS `String.prototype.includes`). -/
def strIncludes (hay needle : String) : Bool := decide (List.IsInfix needle.data hay.data)

/-- `inferClaimType(predicate)` from PostgresCoreStore.ts. -/
def inferClaimType (predicate : String) : String :=
  let p := predicate.trim
  if p = "" then "fact"
  else if p.startsWith "favorite_" || p.startsWith "likes_" || p.startsWith "dislikes_" then "preference"
  else if strIncludes p "goal" || p.startsWith "wants_" then "goal"
  else if p.startsWith "did_" || p.startsWith "event_" then "event"
  else "fact"

/-! ### slot_state upsert

`INSERT ... ON CONFLICT (project_id, subject_id, slot) DO UPDATE` sets every
column the statement mentions, so the conflicting row is replaced wholesale. -/

/-- Rows agree on the `slot_state` primary key. -/
def SlotRow.sameKey (a b : SlotRow) : Prop :=
  a.project_id = b.project_id ∧ a.subject_id = b.subject_id ∧ a.slot = b.slot

instance : DecidablePred (fun p : SlotRow × SlotRow => p.1.sameKey p.2) :=
  fun _ => by unfold SlotRow.sameKey; infer_instance

instance (a b : SlotRow) : Decidable (a.sameKey b) := by
  unfold SlotRow.sameKey; infer_instance

/-- Upsert into `slot_state`. -/
def upsertSlot (row : SlotRow) (slots : List SlotRow) : List SlotRow :=
  if slots.any (fun s => s.sameKey row) then
    slots.map (fun s => if s.sameKey row then row else s)
  else
    slots ++ [row]

/-! ### createClaim (PostgresCoreStore.createClaim)

One transaction: claim INSERT, assertion INSERT, slot_state upsert.  A
constraint violation (duplicate `claim_id` primary key, unknown
`source_memory_id` foreign key, out-of-enum CHECK values cannot occur here
because status literals are fixed) aborts the whole transaction, modelled as
`Except.error` with the state unchanged. -/

structure CreateClaimInput where
  claim_id : String
  project_id : String
  subject_id : String
  predicate : String
  object_value : String
  slot : Option String
  claim_type : Option String
  confidence : Option ℚ
  importance : Option ℚ
  tags : List String
  source_memory_id : Option String
  source_observation_id : Option String
  subject_entity : Option String
  valid_from : Option Nat
  valid_until : Option Nat
deriving DecidableEq, Repr

def createClaim (now : Nat) (assertion_id : String) (input : CreateClaimInput)
    (db : Db) : Except Unit (ClaimRow × Db) :=
  let slot := jsStrOr input.slot (inferSlot input.predicate)
  let claimType := jsStrOr input.claim_type (inferClaimType input.predicate)
  let confidence := clampFloat input.confidence 0 1 (4/5)
  let importance := clampFloat input.importance 0 1 (1/2)
  if db.claims.any (fun c => c.claim_id = input.claim_id) then
    .error ()
  else if (match input.source_memory_id with
           | none => false
           | some m => !(db.memories.any (fun r => r.id = m))) then
    .error ()
  else
    let row : ClaimRow :=
      { claim_id := input.claim_id
        project_id := input.project_id
        subject_id := input.subject_id
        predicate := input.predicate
        object_value := input.object_value
        slot := slot
        claim_type := claimType
        confidence := confidence
        importance := importance
        tags := input.tags
        source_memory_id := input.source_memory_id
        source_observation_id := input.source_observation_id
        subject_entity := (match input.subject_entity with
                           | none => "self"
                           | some s => if s = "" then "self" else s)
        status := .active
        asserted_at := now
        retracted_at := none
        retract_reason := none }
    let arow : AssertionRow :=
      { assertion_id := assertion_id
        project_id := input.project_id
        subject_id := input.subject_id
        claim_id := input.claim_id
        memory_id := input.source_memory_id
        predicate := input.predicate
        object_type := "string"
        value_string := input.object_value
        confidence := confidence
        status := "active" }
    let srow : SlotRow :=
      { project_id := input.project_id
        subject_id := input.subject_id
        slot := slot
        active_claim_id := some input.claim_id
        status := .active
        replaced_by_claim_id := none
        updated_at := now }
    .ok (row,
      { db with
        claims := db.claims ++ [row]
        assertions := db.assertions ++ [arow]
        slot_state := upsertSlot srow db.slot_state })

/-! ### retractClaim (PostgresCoreStore.retractClaim) -/

structure RetractResult where
  success : Bool
  claim_id : String
  slot : String
  previous_claim_id : Option String
  restored_previous : Bool
deriving DecidableEq, Repr

/-- `SELECT * FROM claims WHERE project_id = $1 AND claim_id = $2 LIMIT 1`. -/
def lookupClaim (p cid : String) (db : Db) : Option ClaimRow :=
  db.claims.find? (fun c => c.project_id = p ∧ c.claim_id = cid)

/-- `ORDER BY asserted_at DESC LIMIT 1`: one row of maximal `asserted_at`
(ties resolved in favour of the earliest listed row). -/
def argmaxAssertedAt : List ClaimRow → Option ClaimRow
  | [] => none
  | c :: cs =>
    match argmaxAssertedAt cs with
    | none => some c
    | some b => if c.asserted_at < b.asserted_at then some b else some c

/-- The candidate filter of the previous-winner query: same project, subject
and slot, still active, and a different claim. -/
def prevCandidate (p subj slot cid : String) (c : ClaimRow) : Bool :=
  c.project_id = p ∧ c.subject_id = subj ∧ c.slot = slot ∧
    c.status = ClaimStatus.active ∧ c.claim_id ≠ cid

/-- The UPDATE applied to the retracted claim row. -/
def retractUpdate (now : Nat) (reason : String) (c : ClaimRow) : ClaimRow :=
  { c with status := .retracted, retracted_at := some now, retract_reason := some reason }

def retractClaim (now : Nat) (p cid reason : String) (db : Db) :
    RetractResult × Db :=
  match lookupClaim p cid db with
  | none =>
    ({ success := false, claim_id := cid, slot := "",
       previous_claim_id := none, restored_previous := false }, db)
  | some claim =>
    let claims' := db.claims.map (fun c =>
      if c.project_id = p ∧ c.claim_id = cid then retractUpdate now reason c else c)
    let previous :=
      (argmaxAssertedAt (claims'.filter (prevCandidate p claim.subject_id claim.slot cid))).map
        (fun c => c.claim_id)
    let srow : SlotRow :=
      { project_id := p
        subject_id := claim.subject_id
        slot := claim.slot
        active_claim_id := previous
        status := if previous.isSome then .active else .retracted
        replaced_by_claim_id := some cid
        updated_at := now }
    let edges' :=
      match previous with
      | none => db.claim_edges
      | some prev =>
        let newEdge : EdgeRow :=
          { project_id := p, subject_id := claim.subject_id,
            from_claim_id := cid, to_claim_id := prev, edge_type := "retracts",
            weight := 1, reason_code := "manual_retraction", reason_text := reason }
        if db.claim_edges.any (fun e =>
            e.project_id = p ∧ e.from_claim_id = cid ∧ e.to_claim_id = prev ∧
              e.edge_type = "retracts") then
          db.claim_edges
        else
          db.claim_edges ++ [newEdge]
    ({ success := true, claim_id := cid, slot := claim.slot,
       previous_claim_id := previous, restored_previous := previous.isSome },
     { db with
       claims := claims'
       slot_state := upsertSlot srow db.slot_state
       claim_edges := edges' })

/-- The retract HTTP route (`POST /api/v1/claims/:id/retract`): 404 when the
store reports `success:false`, otherwise 200 with the store result. -/
def handleRetractClaim (now : Nat) (p cid reason : String) (db : Db) :
    (Nat × RetractResult) × Db :=
  let r := retractClaim now p cid reason db
  ((if r.1.success then 200 else 404, r.1), r.2)

/-! ### Basic lemmas about the query building blocks -/

theorem argmaxAssertedAt_eq_none {l : List ClaimRow} :
    argmaxAssertedAt l = none ↔ l = [] := by
  cases l with
  | nil => simp [argmaxAssertedAt]
  | cons a as =>
    simp only [argmaxAssertedAt]
    cases hm : argmaxAssertedAt as
    · simp
    · dsimp only
      constructor
      · intro h
        split at h <;> simp_all
      · intro h
        simp at h

theorem argmaxAssertedAt_mem {l : List ClaimRow} {c : ClaimRow}
    (h : argmaxAssertedAt l = some c) : c ∈ l := by
  induction l generalizing c with
  | nil => simp [argmaxAssertedAt] at h
  | cons a as ih =>
    rw [argmaxAssertedAt] at h
    cases hm : argmaxAssertedAt as with
    | none =>
      rw [hm] at h
      dsimp only at h
      simp at h
      simp [h]
    | some b =>
      rw [hm] at h
      dsimp only at h
      by_cases hab : a.asserted_at < b.asserted_at
      · rw [if_pos hab] at h
        simp at h
        rw [h] at hm
        exact List.mem_cons_of_mem a (ih hm)
      · rw [if_neg hab] at h
        simp at h
        simp [h]

theorem argmaxAssertedAt_le {l : List ClaimRow} {c : ClaimRow}
    (h : argmaxAssertedAt l = some c) :
    ∀ d ∈ l, d.asserted_at ≤ c.asserted_at := by
  induction l generalizing c with
  | nil => simp [argmaxAssertedAt] at h
  | cons a as ih =>
    rw [argmaxAssertedAt] at h
    cases hm : argmaxAssertedAt as with
    | none =>
      rw [hm] at h
      dsimp only at h
      simp at h
      have : as = [] := argmaxAssertedAt_eq_none.mp hm
      subst this
      simp [← h]
    | some b =>
      rw [hm] at h
      dsimp only at h
      by_cases hab : a.asserted_at < b.asserted_at
      · rw [if_pos hab] at h
        simp at h
        subst h
        intro d hd
        rcases List.mem_cons.mp hd with rfl | hd
        · exact le_of_lt hab
        · exact ih hm d hd
      · rw [if_neg hab] at h
        simp at h
        subst h
        intro d hd
        rcases List.mem_cons.mp hd with rfl | hd
        · exact le_refl _
        · exact le_trans (ih hm d hd) (not_lt.mp hab)

theorem argmaxAssertedAt_isSome {l : List ClaimRow} {c : ClaimRow} (h : c ∈ l) :
    (argmaxAssertedAt l).isSome := by
  cases hm : argmaxAssertedAt l
  · rw [argmaxAssertedAt_eq_none.mp hm] at h
    simp at h
  · rfl

theorem filter_map_eq_filter {α : Type} (f : α → α) (q : α → Bool) (l : List α)
    (h : ∀ a, f a = a ∨ (q a = false ∧ q (f a) = false)) :
    (l.map f).filter q = l.filter q := by
  induction l with
  | nil => rfl
  | cons a as ih =>
    simp only [List.map_cons, List.filter_cons]
    rcases h a with h1 | ⟨h2, h3⟩
    · rw [h1, ih]
    · rw [h2, h3, ih]
      simp

theorem upsertSlot_mem_self (row : SlotRow) (slots : List SlotRow) :
    row ∈ upsertSlot row slots := by
  unfold upsertSlot
  split
  · rename_i hAny
    rw [List.any_eq_true] at hAny
    obtain ⟨s, hs, hkey⟩ := hAny
    exact List.mem_map.mpr ⟨s, hs, by rw [if_pos (of_decide_eq_true hkey)]⟩
  · exact List.mem_append_right _ (List.mem_singleton.mpr rfl)

theorem upsertSlot_mem_other {s : SlotRow} (row : SlotRow) {slots : List SlotRow}
    (hs : s ∈ slots) (h : ¬ s.sameKey row) : s ∈ upsertSlot row slots := by
  unfold upsertSlot
  split
  · exact List.mem_map.mpr ⟨s, hs, by rw [if_neg h]⟩
  · exact List.mem_append_left _ hs

/-- The claims table after the retract UPDATE. -/
def retractedClaims (now : Nat) (p cid reason : String) (l : List ClaimRow) : List ClaimRow :=
  l.map (fun c => if c.project_id = p ∧ c.claim_id = cid then retractUpdate now reason c else c)

/-- The previous-winner query result for a retract of `X`. -/
def prevWinner (now : Nat) (p cid reason : String) (db : Db) (X : ClaimRow) : Option String :=
  (argmaxAssertedAt ((retractedClaims now p cid reason db.claims).filter
      (prevCandidate p X.subject_id X.slot cid))).map (fun c => c.claim_id)

/-- The slot_state row upserted by a retract of `X`. -/
def retractSlotRow (now : Nat) (p cid reason : String) (db : Db) (X : ClaimRow) : SlotRow :=
  { project_id := p
    subject_id := X.subject_id
    slot := X.slot
    active_claim_id := prevWinner now p cid reason db X
    status := if (prevWinner now p cid reason db X).isSome then .active else .retracted
    replaced_by_claim_id := some cid
    updated_at := now }

/-- The claim_edges table after a retract of `X`. -/
def retractEdges (now : Nat) (p cid reason : String) (db : Db) (X : ClaimRow) : List EdgeRow :=
  match prevWinner now p cid reason db X with
  | none => db.claim_edges
  | some prev =>
    let newEdge : EdgeRow :=
      { project_id := p, subject_id := X.subject_id,
        from_claim_id := cid, to_claim_id := prev, edge_type := "retracts",
        weight := 1, reason_code := "manual_retraction", reason_text := reason }
    if db.claim_edges.any (fun e =>
        e.project_id = p ∧ e.from_claim_id = cid ∧ e.to_claim_id = prev ∧
          e.edge_type = "retracts") then
      db.claim_edges
    else
      db.claim_edges ++ [newEdge]

/-- Unfolding `retractClaim` when the claim lookup succeeds. -/
theorem retractClaim_eq {p cid : String} {db : Db} {X : ClaimRow}
    (now : Nat) (reason : String) (h : lookupClaim p cid db = some X) :
    retractClaim now p cid reason db =
      ({ success := true, claim_id := cid, slot := X.slot,
         previous_claim_id := prevWinner now p cid reason db X,
         restored_previous := (prevWinner now p cid reason db X).isSome },
       { db with
         claims := retractedClaims now p cid reason db.claims
         slot_state := upsertSlot (retractSlotRow now p cid reason db X) db.slot_state
         claim_edges := retractEdges now p cid reason db X }) := by
  unfold retractClaim retractSlotRow retractEdges prevWinner retractedClaims
  rw [h]

theorem lookupClaim_some {p cid : String} {db : Db} {X : ClaimRow}
    (h : lookupClaim p cid db = some X) :
    X ∈ db.claims ∧ X.project_id = p ∧ X.claim_id = cid := by
  unfold lookupClaim at h
  have hm := List.mem_of_find?_eq_some h
  have hp := List.find?_some h
  simp at hp
  exact ⟨hm, hp.1, hp.2⟩

theorem retractedClaims_filter_prevCandidate (now : Nat) (p cid reason subj slot : String)
    (l : List ClaimRow) :
    (retractedClaims now p cid reason l).filter (prevCandidate p subj slot cid) =
      l.filter (prevCandidate p subj slot cid) := by
  unfold retractedClaims
  apply filter_map_eq_filter
  intro a
  by_cases hc : a.project_id = p ∧ a.claim_id = cid
  · right
    rw [if_pos hc]
    constructor
    · simp [prevCandidate, hc.2]
    · simp [prevCandidate, retractUpdate, hc.2]
  · left
    rw [if_neg hc]

/-- The functional contract of `RetractClaim` applied to an existing claim
`X` (the statement of claim C2), phrased over the pre-state `db`. -/
def RetractContract (now : Nat) (p cid reason : String) (db : Db) (X : ClaimRow) : Prop :=
  (retractClaim now p cid reason db).1.success = true ∧
  (retractClaim now p cid reason db).1.claim_id = cid ∧
  (retractClaim now p cid reason db).1.slot = X.slot ∧
  (retractClaim now p cid reason db).1.restored_previous
    = (retractClaim now p cid reason db).1.previous_claim_id.isSome ∧
  (∃ c ∈ (retractClaim now p cid reason db).2.claims,
     c.project_id = p ∧ c.claim_id = cid ∧ c.status = ClaimStatus.retracted ∧
     c.retracted_at = some now ∧ c.retract_reason = some reason) ∧
  (∀ c ∈ (retractClaim now p cid reason db).2.claims,
     c.project_id = p → c.claim_id = cid → c.status = ClaimStatus.retracted) ∧
  (∀ c ∈ db.claims, ¬(c.project_id = p ∧ c.claim_id = cid) →
     c ∈ (retractClaim now p cid reason db).2.claims) ∧
  (match (retractClaim now p cid reason db).1.previous_claim_id with
   | some q => ∃ c ∈ db.claims, c.claim_id = q ∧
       prevCandidate p X.subject_id X.slot cid c = true ∧
       ∀ d ∈ db.claims, prevCandidate p X.subject_id X.slot cid d = true →
         d.asserted_at ≤ c.asserted_at
   | none => ∀ d ∈ db.claims, prevCandidate p X.subject_id X.slot cid d = false) ∧
  (∃ s ∈ (retractClaim now p cid reason db).2.slot_state,
     s.project_id = p ∧ s.subject_id = X.subject_id ∧ s.slot = X.slot ∧
     s.active_claim_id = (retractClaim now p cid reason db).1.previous_claim_id ∧
     s.status = (if (retractClaim now p cid reason db).1.previous_claim_id.isSome
                 then SlotStatus.active else SlotStatus.retracted) ∧
     s.replaced_by_claim_id = some cid ∧ s.updated_at = now) ∧
  (∀ s ∈ db.slot_state,
     ¬(s.project_id = p ∧ s.subject_id = X.subject_id ∧ s.slot = X.slot) →
     s ∈ (retractClaim now p cid reason db).2.slot_state) ∧
  (match (retractClaim now p cid reason db).1.previous_claim_id with
   | some q =>
     (∃ e ∈ (retractClaim now p cid reason db).2.claim_edges,
        e.project_id = p ∧ e.from_claim_id = cid ∧ e.to_claim_id = q ∧
          e.edge_type = "retracts") ∧
     ∀ e ∈ (retractClaim now p cid reason db).2.claim_edges,
       e ∈ db.claim_edges ∨
         (e.project_id = p ∧ e.from_claim_id = cid ∧ e.to_claim_id = q ∧
           e.edge_type = "retracts")
   | none => (retractClaim now p cid reason db).2.claim_edges = db.claim_edges)

/-- C2: for every existing claim `X`, `RetractClaim(X, reason)` marks `X`
retracted, selects as `previous` a most-recently-asserted other active claim
of the same (project, subject, slot) when one exists, upserts the slot_state
row to that previous winner (status active when it exists, retracted with a
null winner otherwise, recording `replaced_by_claim_id = X`), inserts a
`retracts` edge from `X` to `previous` exactly when `previous` exists, and
returns success with `previous_claim_id` and
`restored_previous = (previous exists)`. -/
theorem claim_C2_retract_contract (now : Nat) (p cid reason : String) (db : Db)
    (X : ClaimRow) (h : lookupClaim p cid db = some X) :
    RetractContract now p cid reason db X := by
  obtain ⟨hXmem, hXp, hXc⟩ := lookupClaim_some h
  unfold RetractContract
  rw [retractClaim_eq now reason h]
  refine ⟨rfl, rfl, rfl, rfl, ?_, ?_, ?_, ?_, ?_, ?_, ?_⟩
  · -- the retracted row exists
    refine ⟨retractUpdate now reason X, ?_, ?_⟩
    · exact List.mem_map.mpr ⟨X, hXmem, by rw [if_pos ⟨hXp, hXc⟩]⟩
    · simp [retractUpdate, hXp, hXc]
  · -- every (p, cid) row is retracted
    intro c hc hcp hcc
    obtain ⟨a, _, ha⟩ := List.mem_map.mp hc
    by_cases hcond : a.project_id = p ∧ a.claim_id = cid
    · rw [if_pos hcond] at ha
      rw [← ha]
      simp [retractUpdate]
    · rw [if_neg hcond] at ha
      exact absurd ⟨ha ▸ hcp, ha ▸ hcc⟩ hcond
  · -- other rows survive unchanged
    intro c hc hcond
    exact List.mem_map.mpr ⟨c, hc, by rw [if_neg hcond]⟩
  · -- previous-winner characterisation
    show (match prevWinner now p cid reason db X with
          | some q => ∃ c ∈ db.claims, c.claim_id = q ∧ _ ∧ _
          | none => _)
    cases hq : prevWinner now p cid reason db X with
    | none =>
      unfold prevWinner at hq
      rw [retractedClaims_filter_prevCandidate] at hq
      rw [Option.map_eq_none'] at hq
      have hnil := argmaxAssertedAt_eq_none.mp hq
      intro d hd
      by_contra hcand
      have : d ∈ db.claims.filter (prevCandidate p X.subject_id X.slot cid) := by
        rw [List.mem_filter]
        exact ⟨hd, Bool.not_eq_false _ ▸ hcand⟩
      rw [hnil] at this
      simp at this
    | some q =>
      unfold prevWinner at hq
      rw [retractedClaims_filter_prevCandidate] at hq
      rw [Option.map_eq_some'] at hq
      obtain ⟨c, hc, hcq⟩ := hq
      have hcmem := argmaxAssertedAt_mem hc
      rw [List.mem_filter] at hcmem
      refine ⟨c, hcmem.1, hcq, hcmem.2, ?_⟩
      intro d hd hdc
      exact argmaxAssertedAt_le hc d (List.mem_filter.mpr ⟨hd, hdc⟩)
  · -- the upserted slot row
    exact ⟨retractSlotRow now p cid reason db X,
      upsertSlot_mem_self _ _, rfl, rfl, rfl, rfl, rfl, rfl, rfl⟩
  · -- untouched slot rows survive
    intro s hs hcond
    refine upsertSlot_mem_other _ hs ?_
    intro hkey
    exact hcond ⟨hkey.1, hkey.2.1, hkey.2.2⟩
  · -- the retracts edge
    show (match prevWinner now p cid reason db X with
          | some q => _ ∧ _
          | none => retractEdges now p cid reason db X = db.claim_edges)
    cases hq : prevWinner now p cid reason db X with
    | none =>
      unfold retractEdges
      rw [hq]
    | some q =>
      constructor
      · unfold retractEdges
        rw [hq]
        dsimp only
        split
        · rename_i hAny
          rw [List.any_eq_true] at hAny
          obtain ⟨e, he, hep⟩ := hAny
          have hep' := of_decide_eq_true hep
          exact ⟨e, he, hep'.1, hep'.2.1, hep'.2.2.1, hep'.2.2.2⟩
        · exact ⟨_, List.mem_append_right _ (List.mem_singleton.mpr rfl),
            rfl, rfl, rfl, rfl⟩
      · intro e he
        unfold retractEdges at he
        rw [hq] at he
        dsimp only at he
        split at he
        · exact Or.inl he
        · rcases List.mem_append.mp he with h1 | h1
          · exact Or.inl h1
          · rw [List.mem_singleton.mp h1]
            exact Or.inr ⟨rfl, rfl, rfl, rfl⟩

/-! ### Claim C3: retract-after-retract -/

/-- Every row with the retracted claim's key is `retracted` afterwards. -/
theorem retractedClaims_retracted (now : Nat) (p cid reason : String)
    (l : List ClaimRow) :
    ∀ c ∈ retractedClaims now p cid reason l,
      c.project_id = p → c.claim_id = cid → c.status = ClaimStatus.retracted := by
  intro c hc hcp hcc
  obtain ⟨a, _, ha⟩ := List.mem_map.mp hc
  by_cases hcond : a.project_id = p ∧ a.claim_id = cid
  · rw [if_pos hcond] at ha
    rw [← ha]
    simp [retractUpdate]
  · rw [if_neg hcond] at ha
    exact absurd ⟨ha ▸ hcp, ha ▸ hcc⟩ hcond

theorem find_retractedClaims (now : Nat) (p cid reason : String) (l : List ClaimRow) :
    (retractedClaims now p cid reason l).find?
        (fun c => c.project_id = p ∧ c.claim_id = cid)
      = (l.find? (fun c => c.project_id = p ∧ c.claim_id = cid)).map
          (retractUpdate now reason) := by
  induction l with
  | nil => rfl
  | cons a as ih =>
    unfold retractedClaims at ih ⊢
    simp only [List.map_cons]
    by_cases hc : a.project_id = p ∧ a.claim_id = cid
    · rw [if_pos hc]
      rw [List.find?_cons_of_pos _ (by simp [retractUpdate, hc.1, hc.2]),
        List.find?_cons_of_pos _ (by simp [hc.1, hc.2])]
      rfl
    · rw [if_neg hc]
      rw [List.find?_cons_of_neg _ (by simpa using hc),
        List.find?_cons_of_neg _ (by simpa using hc)]
      exact ih

theorem lookupClaim_after_retract {p cid : String} {db : Db} {X : ClaimRow}
    (now : Nat) (reason : String) (h : lookupClaim p cid db = some X) :
    lookupClaim p cid (retractClaim now p cid reason db).2
      = some (retractUpdate now reason X) := by
  rw [retractClaim_eq now reason h]
  show (retractedClaims now p cid reason db.claims).find? _ = _
  rw [find_retractedClaims]
  unfold lookupClaim at h
  rw [h]
  rfl

/-- `updated_at` erased, for slot-level comparisons modulo timestamps. -/
def stripSlotTime (s : SlotRow) : SlotRow := { s with updated_at := 0 }

theorem upsertSlot_all_key {row : SlotRow} {slots : List SlotRow} :
    ∀ s ∈ upsertSlot row slots, s.sameKey row → s = row := by
  intro s hs hkey
  unfold upsertSlot at hs
  split at hs
  · obtain ⟨a, _, ha⟩ := List.mem_map.mp hs
    by_cases hak : a.sameKey row
    · rw [if_pos hak] at ha
      exact ha.symm
    · rw [if_neg hak] at ha
      exact absurd (ha ▸ hkey) hak
  · rename_i hAny
    rcases List.mem_append.mp hs with h1 | h1
    · exact absurd (List.any_eq_true.mpr ⟨s, h1, decide_eq_true hkey⟩) hAny
    · exact List.mem_singleton.mp h1

theorem upsertSlot_of_key {row : SlotRow} {slots : List SlotRow} {s₀ : SlotRow}
    (hs : s₀ ∈ slots) (hk : s₀.sameKey row) :
    upsertSlot row slots = slots.map (fun s => if s.sameKey row then row else s) := by
  unfold upsertSlot
  rw [if_pos (List.any_eq_true.mpr ⟨s₀, hs, decide_eq_true hk⟩)]

theorem upsertSlot_twice_strip (r₁ r₂ : SlotRow) (slots : List SlotRow)
    (hkey : r₁.sameKey r₂) (hstrip : stripSlotTime r₁ = stripSlotTime r₂) :
    (upsertSlot r₂ (upsertSlot r₁ slots)).map stripSlotTime
      = (upsertSlot r₁ slots).map stripSlotTime := by
  have hmem : r₁ ∈ upsertSlot r₁ slots := upsertSlot_mem_self _ _
  rw [upsertSlot_of_key hmem hkey, List.map_map]
  apply List.map_congr_left
  intro s hs
  by_cases hsk : s.sameKey r₂
  · have hs1 : s = r₁ := by
      apply upsertSlot_all_key s hs
      exact ⟨hsk.1.trans hkey.1.symm, hsk.2.1.trans hkey.2.1.symm,
        hsk.2.2.trans hkey.2.2.symm⟩
    simp only [Function.comp_apply, if_pos hsk]
    rw [hs1, hstrip]
  · simp only [Function.comp_apply, if_neg hsk]

/-- After a retract that restored `prev`, the retracts edge is present. -/
theorem retractEdges_contains {now : Nat} {p cid reason : String} {db : Db}
    {X : ClaimRow} {prev : String}
    (hq : prevWinner now p cid reason db X = some prev) :
    ∃ e ∈ retractEdges now p cid reason db X,
      e.project_id = p ∧ e.from_claim_id = cid ∧ e.to_claim_id = prev ∧
        e.edge_type = "retracts" := by
  unfold retractEdges
  rw [hq]
  dsimp only
  split
  · rename_i hAny
    rw [List.any_eq_true] at hAny
    obtain ⟨e, he, hep⟩ := hAny
    have hep' := of_decide_eq_true hep
    exact ⟨e, he, hep'.1, hep'.2.1, hep'.2.2.1, hep'.2.2.2⟩
  · exact ⟨_, List.mem_append_right _ (List.mem_singleton.mpr rfl), rfl, rfl, rfl, rfl⟩

theorem prevWinner_after_retract (now1 now2 : Nat) (p cid r1 r2 : String)
    (db : Db) (X : ClaimRow) :
    prevWinner now2 p cid r2 (retractClaim now1 p cid r1 db).2
        (retractUpdate now1 r1 X)
      = prevWinner now1 p cid r1 db X ∨
    lookupClaim p cid db = none := by
  cases h : lookupClaim p cid db with
  | none => exact Or.inr rfl
  | some Y =>
    left
    rw [retractClaim_eq now1 r1 h]
    unfold prevWinner
    rw [retractedClaims_filter_prevCandidate, retractedClaims_filter_prevCandidate,
      retractedClaims_filter_prevCandidate]
    rfl

/-- The amended C3 statement: a second retract of the same claim returns
success (HTTP 200), recomputes the same previous winner, leaves slot_state
unchanged apart from `updated_at` and claim_edges unchanged, and the claim
stays outside the active set. -/
def RetractRetractNoOp (now1 now2 : Nat) (p cid r1 r2 : String) (db : Db) : Prop :=
  (retractClaim now2 p cid r2 (retractClaim now1 p cid r1 db).2).1.success = true ∧
  (handleRetractClaim now2 p cid r2 (retractClaim now1 p cid r1 db).2).1.1 = 200 ∧
  (retractClaim now2 p cid r2 (retractClaim now1 p cid r1 db).2).1.previous_claim_id
    = (retractClaim now1 p cid r1 db).1.previous_claim_id ∧
  (retractClaim now2 p cid r2 (retractClaim now1 p cid r1 db).2).2.slot_state.map
      stripSlotTime
    = (retractClaim now1 p cid r1 db).2.slot_state.map stripSlotTime ∧
  (retractClaim now2 p cid r2 (retractClaim now1 p cid r1 db).2).2.claim_edges
    = (retractClaim now1 p cid r1 db).2.claim_edges ∧
  (∀ c ∈ (retractClaim now2 p cid r2 (retractClaim now1 p cid r1 db).2).2.claims,
     c.project_id = p → c.claim_id = cid → c.status = ClaimStatus.retracted)

/-- C3 (amended): retracting an existing claim twice is a no-op at the slot
level (`slot_state` identical apart from `updated_at`, `claim_edges`
identical), and the second call again returns success — the lookup in
`retractClaim` does not test the claim's status, so it does NOT return
`success:false` — while the claim is no longer in the active set. -/
theorem claim_C3_retract_twice (now1 now2 : Nat) (p cid r1 r2 : String) (db : Db)
    (X : ClaimRow) (h : lookupClaim p cid db = some X) :
    RetractRetractNoOp now1 now2 p cid r1 r2 db := by
  have h1 : lookupClaim p cid (retractClaim now1 p cid r1 db).2
      = some (retractUpdate now1 r1 X) := lookupClaim_after_retract now1 r1 h
  have hprev : prevWinner now2 p cid r2 (retractClaim now1 p cid r1 db).2
      (retractUpdate now1 r1 X) = prevWinner now1 p cid r1 db X := by
    rcases prevWinner_after_retract now1 now2 p cid r1 r2 db X with h' | h'
    · exact h'
    · rw [h] at h'
      cases h'
  have hslots : (retractClaim now1 p cid r1 db).2.slot_state
      = upsertSlot (retractSlotRow now1 p cid r1 db X) db.slot_state := by
    rw [retractClaim_eq now1 r1 h]
  have hedges : (retractClaim now1 p cid r1 db).2.claim_edges
      = retractEdges now1 p cid r1 db X := by
    rw [retractClaim_eq now1 r1 h]
  unfold RetractRetractNoOp
  rw [retractClaim_eq now2 r2 h1]
  refine ⟨rfl, ?_, ?_, ?_, ?_, ?_⟩
  · unfold handleRetractClaim
    rw [retractClaim_eq now2 r2 h1]
    rfl
  · show prevWinner now2 p cid r2 _ _ = _
    rw [hprev, retractClaim_eq now1 r1 h]
  · show (upsertSlot (retractSlotRow now2 p cid r2 (retractClaim now1 p cid r1 db).2
        (retractUpdate now1 r1 X)) (retractClaim now1 p cid r1 db).2.slot_state).map
          stripSlotTime
      = (retractClaim now1 p cid r1 db).2.slot_state.map stripSlotTime
    rw [hslots]
    apply upsertSlot_twice_strip
    · exact ⟨rfl, rfl, rfl⟩
    · unfold retractSlotRow stripSlotTime
      rw [hprev]
      rfl
  · show retractEdges now2 p cid r2 (retractClaim now1 p cid r1 db).2
        (retractUpdate now1 r1 X) = (retractClaim now1 p cid r1 db).2.claim_edges
    unfold retractEdges
    rw [hprev]
    cases hq : prevWinner now1 p cid r1 db X with
    | none => rfl
    | some prev =>
      obtain ⟨e, he, hep⟩ := retractEdges_contains hq
      rw [← hedges] at he
      dsimp only
      rw [if_pos (List.any_eq_true.mpr ⟨e, he, decide_eq_true hep⟩)]
  · exact retractedClaims_retracted now2 p cid r2 _

/-! ### Concrete rows and databases for witnesses and counterexamples -/

def claimA : ClaimRow :=
  { claim_id := "clm_a", project_id := "proj", subject_id := "subj",
    predicate := "favorite_color", object_value := "yellow",
    slot := "favorite_color", claim_type := "preference",
    confidence := 1, importance := 1, tags := [],
    source_memory_id := none, source_observation_id := none,
    subject_entity := "self", status := .active, asserted_at := 1,
    retracted_at := none, retract_reason := none }

def claimB : ClaimRow :=
  { claimA with claim_id := "clm_b", object_value := "blue", asserted_at := 2 }

def slotAB : SlotRow :=
  { project_id := "proj", subject_id := "subj", slot := "favorite_color",
    active_claim_id := some "clm_b", status := .active,
    replaced_by_claim_id := none, updated_at := 2 }

/-- Two active claims on the same slot, the newer one winning. -/
def dbAB : Db := { Db.empty with claims := [claimA, claimB], slot_state := [slotAB] }

/-- A single active claim, no slot row yet. -/
def dbA : Db := { Db.empty with claims := [claimA] }

/-- Witness for C2: retracting `clm_b` in `dbAB` satisfies the contract. -/
theorem claim_C2_witness :
    lookupClaim "proj" "clm_b" dbAB = some claimB ∧
      RetractContract 3 "proj" "clm_b" "changed mind" dbAB claimB :=
  ⟨by decide,
   claim_C2_retract_contract 3 "proj" "clm_b" "changed mind" dbAB claimB (by decide)⟩

/-- Counterexample for C3 as frozen: after a successful retract of `clm_a`,
a second retract of the same claim again returns `success = true` (and the
HTTP route answers 200, not 404) — the claim predicted `success:false`. -/
theorem claim_C3_counterexample :
    (retractClaim 2 "proj" "clm_a" "first" dbA).1.success = true ∧
    (retractClaim 3 "proj" "clm_a" "second"
        (retractClaim 2 "proj" "clm_a" "first" dbA).2).1.success = true ∧
    (handleRetractClaim 3 "proj" "clm_a" "second"
        (retractClaim 2 "proj" "clm_a" "first" dbA).2).1.1 = 200 := by
  decide

/-- Witness for the amended C3 theorem. -/
theorem claim_C3_witness :
    lookupClaim "proj" "clm_a" dbA = some claimA ∧
      RetractRetractNoOp 2 3 "proj" "clm_a" "first" "second" dbA :=
  ⟨by decide,
   claim_C3_retract_twice 2 3 "proj" "clm_a" "first" "second" dbA claimA (by decide)⟩

/-! ### Claim C1: the slot-state invariant

`DbInv` is the inductive invariant actually preserved by the two claim-write
transactions: primary-key uniqueness of `claims.claim_id` and of the
`slot_state` triple, plus the referential condition that every active slot
row points at an existing active claim of the same project, subject and
slot.  The C1 sentence (no subject condition) and the at-most-one-winner
consequence follow from it. -/

def UniqueClaimIds (db : Db) : Prop :=
  db.claims.Pairwise (fun a b => a.claim_id ≠ b.claim_id)

def UniqueSlotKeys (db : Db) : Prop :=
  db.slot_state.Pairwise (fun a b => ¬ a.sameKey b)

def SlotRefInv (db : Db) : Prop :=
  ∀ s ∈ db.slot_state, s.status = SlotStatus.active →
    ∃ c ∈ db.claims, some c.claim_id = s.active_claim_id ∧
      c.project_id = s.project_id ∧ c.subject_id = s.subject_id ∧
      c.slot = s.slot ∧ c.status = ClaimStatus.active

def DbInv (db : Db) : Prop := UniqueClaimIds db ∧ UniqueSlotKeys db ∧ SlotRefInv db

/-- The `getCurrentTruth`/`getCurrentSlot` view restricted to one
(project, subject, slot) triple: active slot rows joined (on project and
claim id) with active claims. -/
def slotWinners (db : Db) (p subj slot : String) : List ClaimRow :=
  (db.slot_state.filter (fun s =>
      s.project_id = p ∧ s.subject_id = subj ∧ s.slot = slot ∧
        s.status = SlotStatus.active)).flatMap
    (fun s => db.claims.filter (fun c =>
      c.project_id = s.project_id ∧ some c.claim_id = s.active_claim_id ∧
        c.status = ClaimStatus.active))

/-- The property claimed by C1 for a database at rest: every active slot
row references an existing active claim with the matching slot, and every
(project, subject, slot) triple has at most one winner in the view. -/
def SlotStateC1 (db : Db) : Prop :=
  (∀ s ∈ db.slot_state, s.status = SlotStatus.active →
    ∃ c ∈ db.claims, some c.claim_id = s.active_claim_id ∧
      c.project_id = s.project_id ∧ c.status = ClaimStatus.active ∧
      c.slot = s.slot) ∧
  ∀ p subj slot, (slotWinners db p subj slot).length ≤ 1

theorem length_filter_le_one {α : Type} {l : List α} {q : α → Bool}
    (h : l.Pairwise (fun a b => ¬(q a = true ∧ q b = true))) :
    (l.filter q).length ≤ 1 := by
  induction l with
  | nil => simp
  | cons a as ih =>
    rw [List.pairwise_cons] at h
    rw [List.filter_cons]
    by_cases ha : q a = true
    · rw [if_pos ha]
      have hnil : as.filter q = [] := by
        rw [List.filter_eq_nil_iff]
        intro b hb hqb
        exact (h.1 b hb) ⟨ha, hqb⟩
      rw [hnil]
      simp
    · rw [if_neg ha]
      exact ih h.2

theorem eq_of_uniqueClaimIds {l : List ClaimRow}
    (h : l.Pairwise (fun a b => a.claim_id ≠ b.claim_id)) {c d : ClaimRow}
    (hc : c ∈ l) (hd : d ∈ l) (hid : c.claim_id = d.claim_id) : c = d := by
  by_contra hne
  exact h.forall (fun a b hab => hab.symm) hc hd hne hid

theorem slotWinners_le_one {db : Db} (hinv : DbInv db) (p subj slot : String) :
    (slotWinners db p subj slot).length ≤ 1 := by
  obtain ⟨hc, hs, _⟩ := hinv
  unfold slotWinners
  have h1 : (db.slot_state.filter (fun s =>
      s.project_id = p ∧ s.subject_id = subj ∧ s.slot = slot ∧
        s.status = SlotStatus.active)).length ≤ 1 := by
    apply length_filter_le_one
    apply hs.imp
    intro a b hab hq
    obtain ⟨ha, hb⟩ := hq
    have ha' := of_decide_eq_true ha
    have hb' := of_decide_eq_true hb
    exact hab ⟨ha'.1.trans hb'.1.symm, ha'.2.1.trans hb'.2.1.symm,
      ha'.2.2.1.trans hb'.2.2.1.symm⟩
  cases hfs : db.slot_state.filter (fun s =>
      s.project_id = p ∧ s.subject_id = subj ∧ s.slot = slot ∧
        s.status = SlotStatus.active) with
  | nil => simp
  | cons s rest =>
    rw [hfs] at h1
    have hrest : rest = [] := by
      cases rest with
      | nil => rfl
      | cons t ts => simp at h1
    subst hrest
    simp only [List.flatMap_cons, List.flatMap_nil, List.append_nil]
    apply length_filter_le_one
    apply hc.imp
    intro a b hab hq
    obtain ⟨ha, hb⟩ := hq
    have ha' := of_decide_eq_true ha
    have hb' := of_decide_eq_true hb
    have : some a.claim_id = some b.claim_id := ha'.2.1.trans hb'.2.1.symm
    exact hab (Option.some_injective _ this)

theorem SlotStateC1_of_DbInv {db : Db} (hinv : DbInv db) : SlotStateC1 db := by
  constructor
  · intro s hs hact
    obtain ⟨c, hc, h1, h2, _, h4, h5⟩ := hinv.2.2 s hs hact
    exact ⟨c, hc, h1, h2, h5, h4⟩
  · exact slotWinners_le_one hinv

/-- Elements of an upsert are either the new row or an original row. -/
theorem upsertSlot_mem_cases {row : SlotRow} {slots : List SlotRow} :
    ∀ s ∈ upsertSlot row slots, s = row ∨ s ∈ slots := by
  intro s hs
  unfold upsertSlot at hs
  split at hs
  · obtain ⟨a, ha, hae⟩ := List.mem_map.mp hs
    by_cases hak : a.sameKey row
    · rw [if_pos hak] at hae
      exact Or.inl hae.symm
    · rw [if_neg hak] at hae
      exact Or.inr (hae ▸ ha)
  · rcases List.mem_append.mp hs with h1 | h1
    · exact Or.inr h1
    · exact Or.inl (List.mem_singleton.mp h1)

theorem upsertSlot_pairwise {row : SlotRow} {slots : List SlotRow}
    (h : slots.Pairwise (fun a b => ¬ a.sameKey b)) :
    (upsertSlot row slots).Pairwise (fun a b => ¬ a.sameKey b) := by
  unfold upsertSlot
  split
  · rw [List.pairwise_map]
    apply h.imp
    intro a b hab hk
    apply hab
    have key_eq : ∀ s : SlotRow,
        ((if s.sameKey row then row else s).project_id = s.project_id ∧
         (if s.sameKey row then row else s).subject_id = s.subject_id ∧
         (if s.sameKey row then row else s).slot = s.slot) := by
      intro s
      by_cases hsk : s.sameKey row
      · rw [if_pos hsk]
        exact ⟨hsk.1.symm, hsk.2.1.symm, hsk.2.2.symm⟩
      · rw [if_neg hsk]
        exact ⟨rfl, rfl, rfl⟩
    obtain ⟨pa, sa, la⟩ := key_eq a
    obtain ⟨pb, sb, lb⟩ := key_eq b
    exact ⟨pa.symm.trans (hk.1.trans pb), sa.symm.trans (hk.2.1.trans sb),
      la.symm.trans (hk.2.2.trans lb)⟩
  · rename_i hAny
    rw [List.pairwise_append]
    refine ⟨h, List.pairwise_singleton _ _, ?_⟩
    intro a ha b hb
    rw [List.mem_singleton.mp hb]
    intro hk
    exact hAny (List.any_eq_true.mpr ⟨a, ha, decide_eq_true hk⟩)

/-- `createClaim` preserves the inductive invariant. -/
theorem DbInv_createClaim {now : Nat} {aid : String} {input : CreateClaimInput}
    {db : Db} {row : ClaimRow} {db' : Db} (hinv : DbInv db)
    (h : createClaim now aid input db = .ok (row, db')) : DbInv db' := by
  unfold createClaim at h
  split at h
  · cases h
  · split at h
    · cases h
    · rename_i hAny hFk
      rw [Except.ok.injEq, Prod.mk.injEq] at h
      obtain ⟨-, hdb⟩ := h
      subst hdb
      obtain ⟨hc, hs, href⟩ := hinv
      have hFresh : ∀ c ∈ db.claims, c.claim_id ≠ input.claim_id := by
        intro c hcm he
        exact hAny (List.any_eq_true.mpr ⟨c, hcm, decide_eq_true he⟩)
      refine ⟨?_, ?_, ?_⟩
      · show (db.claims ++ [_]).Pairwise _
        rw [List.pairwise_append]
        refine ⟨hc, List.pairwise_singleton _ _, ?_⟩
        intro a ha b hb
        rw [List.mem_singleton.mp hb]
        exact hFresh a ha
      · exact upsertSlot_pairwise hs
      · intro s hs' hact
        rcases upsertSlot_mem_cases s hs' with rfl | hold
        · refine ⟨_, List.mem_append_right _ (List.mem_singleton.mpr rfl),
            rfl, rfl, rfl, rfl, rfl⟩
        · obtain ⟨c, hcm, h1, h2, h3, h4, h5⟩ := href s hold hact
          exact ⟨c, List.mem_append_left _ hcm, h1, h2, h3, h4, h5⟩

/-- When the upserted slot row of a retract is active, a previous winner
exists in the post-state claims and backs the row. -/
theorem retractSlotRow_witness (now : Nat) (p cid reason : String) (db : Db)
    (X : ClaimRow)
    (hact : (retractSlotRow now p cid reason db X).status = SlotStatus.active) :
    ∃ c ∈ retractedClaims now p cid reason db.claims,
      some c.claim_id = (retractSlotRow now p cid reason db X).active_claim_id ∧
      c.project_id = p ∧ c.subject_id = X.subject_id ∧
      c.slot = X.slot ∧ c.status = ClaimStatus.active := by
  cases hx : argmaxAssertedAt ((retractedClaims now p cid reason db.claims).filter
      (prevCandidate p X.subject_id X.slot cid)) with
  | none =>
    exfalso
    have hret : (retractSlotRow now p cid reason db X).status = SlotStatus.retracted := by
      unfold retractSlotRow prevWinner
      rw [hx]
      rfl
    rw [hact] at hret
    cases hret
  | some c =>
    have hcmem := argmaxAssertedAt_mem hx
    rw [List.mem_filter] at hcmem
    have hcand : c.project_id = p ∧ c.subject_id = X.subject_id ∧ c.slot = X.slot ∧
        c.status = ClaimStatus.active ∧ c.claim_id ≠ cid := by
      simpa [prevCandidate] using hcmem.2
    refine ⟨c, hcmem.1, ?_, hcand.1, hcand.2.1, hcand.2.2.1, hcand.2.2.2.1⟩
    show some c.claim_id = (retractSlotRow now p cid reason db X).active_claim_id
    unfold retractSlotRow prevWinner
    rw [hx]
    rfl

/-- `retractClaim` preserves the inductive invariant. -/
theorem DbInv_retractClaim (now : Nat) (p cid reason : String) {db : Db}
    (hinv : DbInv db) : DbInv (retractClaim now p cid reason db).2 := by
  cases h : lookupClaim p cid db with
  | none =>
    unfold retractClaim
    rw [h]
    exact hinv
  | some X =>
    obtain ⟨hXmem, hXp, hXc⟩ := lookupClaim_some h
    rw [retractClaim_eq now reason h]
    obtain ⟨hc, hs, href⟩ := hinv
    refine ⟨?_, upsertSlot_pairwise hs, ?_⟩
    · show (retractedClaims now p cid reason db.claims).Pairwise _
      unfold retractedClaims
      rw [List.pairwise_map]
      apply hc.imp
      intro a b hab
      have hid : ∀ c : ClaimRow,
          (if c.project_id = p ∧ c.claim_id = cid then retractUpdate now reason c
           else c).claim_id = c.claim_id := by
        intro c
        by_cases hcc : c.project_id = p ∧ c.claim_id = cid
        · rw [if_pos hcc]
          rfl
        · rw [if_neg hcc]
      rw [hid a, hid b]
      exact hab
    · intro s hs' hact
      rcases upsertSlot_mem_cases s hs' with rfl | hold
      · exact retractSlotRow_witness now p cid reason db X hact
      · -- an untouched row: its witness claim is untouched, unless that
        -- witness is the retracted claim itself, in which case the row has
        -- the upserted key and therefore IS the upserted row
        obtain ⟨c, hcm, h1, h2, h3, h4, h5⟩ := href s hold hact
        by_cases hcc : c.project_id = p ∧ c.claim_id = cid
        · have hceq : c = X := eq_of_uniqueClaimIds hc hcm hXmem (hcc.2.trans hXc.symm)
          have hkey : s.sameKey (retractSlotRow now p cid reason db X) := by
            refine ⟨?_, ?_, ?_⟩
            · show s.project_id = p
              rw [← h2, hcc.1]
            · show s.subject_id = X.subject_id
              rw [← h3, hceq]
            · show s.slot = X.slot
              rw [← h4, hceq]
          have hEq := upsertSlot_all_key s hs' hkey
          subst hEq
          exact retractSlotRow_witness now p cid reason db X hact
        · refine ⟨c, ?_, h1, h2, h3, h4, h5⟩
          show c ∈ retractedClaims now p cid reason db.claims
          unfold retractedClaims
          exact List.mem_map.mpr ⟨c, hcm, by rw [if_neg hcc]⟩

/-- The C1 statement packaged over a database: both claim-write transactions
preserve the inductive invariant, and with it the C1 slot-state property. -/
def ClaimWritePreservesInv (db : Db) : Prop :=
  (∀ now aid input row db', createClaim now aid input db = Except.ok (row, db') →
     DbInv db' ∧ SlotStateC1 db') ∧
  (∀ now p cid reason, DbInv (retractClaim now p cid reason db).2 ∧
     SlotStateC1 (retractClaim now p cid reason db).2)

/-- C1: starting from any database satisfying the inductive invariant, every
completed `createClaim` and every `retractClaim` yields a state in which each
active slot_state row references an existing claim that is active and carries
the row's slot, and each (project, subject, slot) triple has at most one
active winning claim in the SlotState view. -/
theorem claim_C1_slot_invariant (db : Db) (hinv : DbInv db) :
    ClaimWritePreservesInv db := by
  constructor
  · intro now aid input row db' h
    have h1 := DbInv_createClaim hinv h
    exact ⟨h1, SlotStateC1_of_DbInv h1⟩
  · intro now p cid reason
    have h1 := DbInv_retractClaim now p cid reason hinv
    exact ⟨h1, SlotStateC1_of_DbInv h1⟩

/-- Witness for C1 at the concrete database `dbAB`. -/
theorem claim_C1_witness : DbInv dbAB ∧ ClaimWritePreservesInv dbAB :=
  ⟨by unfold DbInv UniqueClaimIds UniqueSlotKeys SlotRefInv; decide,
   claim_C1_slot_invariant dbAB
     (by unfold DbInv UniqueClaimIds UniqueSlotKeys SlotRefInv; decide)⟩

/-! ### Generic ordering helpers for `ORDER BY ... DESC LIMIT n` and JS sorts -/

/-- `ORDER BY key DESC LIMIT 1`: one element of maximal key. -/
def argmaxBy {α : Type} (f : α → ℚ) : List α → Option α
  | [] => none
  | a :: as =>
    match argmaxBy f as with
    | none => some a
    | some b => if f a < f b then some b else some a

theorem argmaxBy_eq_none {α : Type} {f : α → ℚ} {l : List α} :
    argmaxBy f l = none ↔ l = [] := by
  cases l with
  | nil => simp [argmaxBy]
  | cons a as =>
    simp only [argmaxBy]
    cases hm : argmaxBy f as
    · simp
    · dsimp only
      constructor
      · intro h
        split at h <;> simp_all
      · intro h
        simp at h

/-- Stable insertion for a descending sort: the new element goes before the
first element it strictly precedes. -/
def insertByGt {α : Type} (gt : α → α → Bool) (a : α) : List α → List α
  | [] => [a]
  | b :: bs => if gt a b then a :: b :: bs else b :: insertByGt gt a bs

/-- Stable descending sort (left fold of stable inserts), as performed by a
stable `Array.prototype.sort` with comparator `(a, b) => key b - key a` and
as a deterministic model of `ORDER BY key DESC`. -/
def sortByGt {α : Type} (gt : α → α → Bool) (l : List α) : List α :=
  l.foldl (fun acc x => insertByGt gt x acc) []

theorem mem_insertByGt {α : Type} {gt : α → α → Bool} {a x : α} {l : List α} :
    x ∈ insertByGt gt a l ↔ x = a ∨ x ∈ l := by
  induction l with
  | nil => simp [insertByGt]
  | cons b bs ih =>
    unfold insertByGt
    split
    · simp
    · rw [List.mem_cons, ih, List.mem_cons]
      tauto

theorem mem_sortByGt {α : Type} {gt : α → α → Bool} {x : α} {l : List α} :
    x ∈ sortByGt gt l ↔ x ∈ l := by
  suffices h : ∀ acc : List α,
      x ∈ l.foldl (fun acc y => insertByGt gt y acc) acc ↔ x ∈ acc ∨ x ∈ l by
    have := h []
    simpa [sortByGt] using this
  induction l with
  | nil => intro acc; simp
  | cons a as ih =>
    intro acc
    simp only [List.foldl_cons]
    rw [ih (insertByGt gt a acc), mem_insertByGt, List.mem_cons]
    tauto

/-- Consecutive elements of an `insertByGt` result keep the invariant that a
later element never strictly precedes an earlier one, provided `gt` is
asymmetric. -/
theorem chain_insertByGt {α : Type} {gt : α → α → Bool}
    (hasym : ∀ a b, gt a b = true → gt b a = false) (a : α) {l : List α}
    (h : List.Chain' (fun x y => gt y x = false) l) :
    List.Chain' (fun x y => gt y x = false) (insertByGt gt a l) := by
  induction l with
  | nil => simp [insertByGt]
  | cons b bs ih =>
    unfold insertByGt
    split
    · rename_i hab
      exact List.Chain'.cons (hasym a b hab) h
    · rename_i hab
      have htail := ih (h.tail)
      have hhead : (insertByGt gt a bs).head? = some a ∨
          (insertByGt gt a bs).head? = bs.head? := by
        cases bs with
        | nil => exact Or.inl rfl
        | cons d ds =>
          unfold insertByGt
          split
          · exact Or.inl rfl
          · exact Or.inr rfl
      rw [List.chain'_cons']
      refine ⟨?_, htail⟩
      intro c hc
      rcases hhead with hh | hh
      · rw [hh] at hc
        simp only [Option.mem_def, Option.some.injEq] at hc
        subst hc
        simpa using hab
      · rw [hh] at hc
        exact (List.chain'_cons'.mp h).1 c hc

theorem chain_sortByGt {α : Type} {gt : α → α → Bool}
    (hasym : ∀ a b, gt a b = true → gt b a = false) (l : List α) :
    List.Chain' (fun x y => gt y x = false) (sortByGt gt l) := by
  suffices h : ∀ acc : List α, List.Chain' (fun x y => gt y x = false) acc →
      List.Chain' (fun x y => gt y x = false)
        (l.foldl (fun acc y => insertByGt gt y acc) acc) by
    exact h [] (List.chain'_nil)
  induction l with
  | nil => intro acc hacc; simpa
  | cons a as ih =>
    intro acc hacc
    simp only [List.foldl_cons]
    exact ih _ (chain_insertByGt hasym a hacc)

/-! ### Memory store operations and the POST/DELETE memory routes

Cosine similarity `(1 - (a <=> b)) * 100` is abstracted as a parameter
`sim : Vec → Vec → ℚ`; the claims below only depend on how its value is
compared against thresholds.  JS string trimming is modelled explicitly
(`jsTrim`) over the character list. -/

/-- JavaScript `\s` (the whitespace class used by `trim`), restricted to the
ASCII whitespace characters plus NBSP and the BOM. -/
def isJsWs (c : Char) : Bool :=
  c = ' ' ∨ c = '\t' ∨ c = '\n' ∨ c = '\r' ∨ c = Char.ofNat 11 ∨
    c = Char.ofNat 12 ∨ c = Char.ofNat 160 ∨ c = Char.ofNat 65279

/-- JS `String.prototype.trim`. -/
def jsTrim (s : String) : String :=
  ⟨((s.data.dropWhile isJsWs).reverse.dropWhile isJsWs).reverse⟩

/-- Lifecycle events emitted on the in-process bus by the memory routes. -/
inductive Event
  | memCreated (id : String)
  | memSuperseded (id : String) (superseded_by : String)
  | memDeleted (id : String)
deriving DecidableEq, Repr

/-- `toVectorLiteral`: an absent or empty embedding becomes SQL NULL (the
non-finite-entry filtering is vacuous over `ℚ`). -/
def toVectorOpt (v : Option Vec) : Option Vec :=
  match v with
  | none => none
  | some l => if l = [] then none else some l

/-- The similarity a query embedding `q` scores against a row (0 for rows
without an embedding, matching the SQL `CASE WHEN ... IS NULL THEN 0`). -/
def simOf (sim : Vec → Vec → ℚ) (q : Vec) (m : MemRow) : ℚ :=
  match m.embedding with
  | none => 0
  | some e => sim e q

/-- WHERE clause of `findDuplicateMemory`. -/
def duplicateCandidate (sim : Vec → Vec → ℚ) (p subj : String) (q : Vec)
    (threshold : ℚ) (m : MemRow) : Bool :=
  m.project_id = p ∧ m.subject_id = subj ∧ m.is_deleted = false ∧
    m.status = MemStatus.active ∧ m.embedding.isSome = true ∧
    simOf sim q m ≥ threshold

/-- `PostgresCoreStore.findDuplicateMemory`. -/
def findDuplicateMemory (sim : Vec → Vec → ℚ) (p subj : String) (emb : Vec)
    (threshold : ℚ) (db : Db) : Option (String × ℚ) :=
  if emb = [] then none
  else
    let t := clampFloat (some threshold) 0 100 85
    (argmaxBy (simOf sim emb)
        (db.memories.filter (duplicateCandidate sim p subj emb t))).map
      (fun m => (m.id, simOf sim emb m))

/-- WHERE clause of `findConflictingMemories` (half-open band). -/
def conflictCandidate (sim : Vec → Vec → ℚ) (p subj : String) (q : Vec)
    (lo hi : ℚ) (m : MemRow) : Bool :=
  m.project_id = p ∧ m.subject_id = subj ∧ m.is_deleted = false ∧
    m.status = MemStatus.active ∧ m.embedding.isSome = true ∧
    simOf sim q m ≥ lo ∧ simOf sim q m < hi

/-- `PostgresCoreStore.findConflictingMemories`. -/
def findConflictingMemories (sim : Vec → Vec → ℚ) (p subj : String) (emb : Vec)
    (minS maxS limit : ℚ) (db : Db) : List (String × ℚ) :=
  if emb = [] then []
  else
    let lo := clampFloat (some minS) 0 100 60
    let hi := clampFloat (some maxS) lo 100 85
    let lim := clampInt (some limit) 1 200 25
    ((sortByGt (fun a b => simOf sim emb a > simOf sim emb b)
        (db.memories.filter (conflictCandidate sim p subj emb lo hi))).take
      lim.toNat).map (fun m => (m.id, simOf sim emb m))

/-- Enumerated CHECK constraint on `memories.kind`. -/
def memoryKinds : List String := ["fact", "preference", "context", "note", "event", "trait"]

/-- Enumerated CHECK constraint on `memories.visibility`. -/
def memoryVisibilities : List String := ["private", "shared", "public"]

structure CreateMemoryInput where
  id : String
  project_id : String
  subject_id : String
  text : String
  kind : Option String
  visibility : Option String
  importance : Option ℚ
  confidence : Option ℚ
  is_temporal : Bool
  tags : List String
  source_type : Option String
  embedding : Option Vec
deriving DecidableEq, Repr

/-- `PostgresCoreStore.createMemory`: a single INSERT with defaults and
clamps; a duplicate primary key or a CHECK violation fails the statement. -/
def createMemory (now : Nat) (input : CreateMemoryInput) (db : Db) :
    Except Unit (MemRow × Db) :=
  let kind := jsStrOr input.kind "fact"
  let visibility := jsStrOr input.visibility "private"
  if db.memories.any (fun m => m.id = input.id) then .error ()
  else if ¬ (kind ∈ memoryKinds) then .error ()
  else if ¬ (visibility ∈ memoryVisibilities) then .error ()
  else
    let row : MemRow :=
      { id := input.id
        project_id := input.project_id
        subject_id := input.subject_id
        text := jsTrim input.text
        kind := kind
        visibility := visibility
        importance := ((clampInt input.importance 0 100 50 : ℤ) : ℚ)
        confidence := clampFloat input.confidence 0 1 (19/20)
        is_temporal := input.is_temporal
        tags := input.tags
        embedding := toVectorOpt input.embedding
        source_type := jsStrOr input.source_type "explicit"
        status := .active
        superseded_by := none
        is_deleted := false
        created_at := now }
    .ok (row, { db with memories := db.memories ++ [row] })

/-- WHERE clause of the `supersedeMemories` UPDATE. -/
def supersedeHit (p subj : String) (ids : List String) (m : MemRow) : Bool :=
  m.project_id = p ∧ m.subject_id = subj ∧ m.id ∈ ids ∧
    m.is_deleted = false ∧ m.status = MemStatus.active

/-- `PostgresCoreStore.supersedeMemories`: bulk transition of active rows,
returning the number of rows the UPDATE touched. -/
def supersedeMemories (p subj : String) (ids : List String) (sby : String)
    (mems : List MemRow) : List MemRow × Nat :=
  let ids' := (ids.map jsTrim).filter (fun s => s ≠ "")
  if ids' = [] then (mems, 0)
  else
    (mems.map (fun m => if supersedeHit p subj ids' m then
        { m with status := .superseded, superseded_by := some sby } else m),
     (mems.filter (supersedeHit p subj ids')).length)

/-- `PostgresCoreStore.deleteMemory`: soft delete, reporting whether a row
actually transitioned. -/
def deleteMemory (p mid : String) (mems : List MemRow) : List MemRow × Bool :=
  (mems.map (fun m => if m.project_id = p ∧ m.id = mid ∧ m.is_deleted = false then
      { m with is_deleted := true } else m),
   mems.any (fun m => m.project_id = p ∧ m.id = mid ∧ m.is_deleted = false))

/-- Responses of `POST /api/v1/memories` that the claims distinguish. -/
inductive MemCreateResp
  | badRequest (error : String)
  | dupSkip
  | created (id : String) (superseded_count : Nat) (superseded_ids : List String)
  | serverError
deriving DecidableEq, Repr

/-- The `POST /api/v1/memories` route (createCoreServer.ts), up to the
response: validation, best-effort embedding (already folded into
`embedRes`), the duplicate check (NOT gated on `no_supersede`), conflict
collection (gated on `no_supersede`), insert, supersession, and event
emission.  The detached claim-extraction task does not touch the response,
the memories table or these events and is not modelled. -/
structure CreateMemBody where
  subject_id : String
  text : String
  kind : Option String
  visibility : Option String
  importance : Option ℚ
  confidence : Option ℚ
  is_temporal : Bool
  tags : List String
  source_type : Option String
  id : Option String
  extract_claims : Bool
  no_supersede : Bool
deriving DecidableEq, Repr

/-- The duplicate probe of the POST memory route: NOT gated on
`no_supersede`, only on the presence of an embedding. -/
def dupProbe (sim : Vec → Vec → ℚ) (p subj : String) (embedRes : Option Vec)
    (db : Db) : Option (String × ℚ) :=
  match toVectorOpt embedRes with
  | some ev => findDuplicateMemory sim p subj ev 85 db
  | none => none

/-- The conflicting-id list the POST memory route collects (gated on
`no_supersede = false` and an embedding being present). -/
def conflictIdsOf (sim : Vec → Vec → ℚ) (body : CreateMemBody)
    (embedRes : Option Vec) (p : String) (db : Db) : List String :=
  match toVectorOpt embedRes, body.no_supersede with
  | some ev, false =>
    ((findConflictingMemories sim p (jsTrim body.subject_id) ev 60 85 50 db).map
      (fun c => jsTrim c.1)).filter (fun s => s ≠ "")
  | _, _ => []

/-- The store input built by the POST memory route. -/
def createInputOf (genId : String) (body : CreateMemBody)
    (embedRes : Option Vec) (p : String) : CreateMemoryInput :=
  { id := jsStrOr body.id genId, project_id := p,
    subject_id := jsTrim body.subject_id, text := jsTrim body.text,
    kind := body.kind, visibility := body.visibility,
    importance := body.importance, confidence := body.confidence,
    is_temporal := body.is_temporal, tags := body.tags,
    source_type := body.source_type, embedding := embedRes }

def handleCreateMemory (sim : Vec → Vec → ℚ) (now : Nat) (genId : String)
    (body : CreateMemBody) (embedRes : Option Vec) (p : String) (db : Db) :
    MemCreateResp × Db × List Event :=
  let subj := jsTrim body.subject_id
  let text := jsTrim body.text
  if subj = "" then (.badRequest "subject_id_required", db, [])
  else if text = "" then (.badRequest "text_required", db, [])
  else if text.length > 10000 then (.badRequest "text_too_long", db, [])
  else if (dupProbe sim p subj embedRes db).isSome then (.dupSkip, db, [])
  else
    let conflictingIds := conflictIdsOf sim body embedRes p db
    match createMemory now (createInputOf genId body embedRes p) db with
    | .error _ => (.serverError, db, [])
    | .ok (memory, db1) =>
      let sres :=
        if conflictingIds ≠ [] then
          supersedeMemories p subj conflictingIds memory.id db1.memories
        else (db1.memories, 0)
      let events :=
        [Event.memCreated memory.id] ++
          (if sres.2 > 0 then
            conflictingIds.map (fun cid => Event.memSuperseded cid memory.id)
          else [])
      (.created memory.id sres.2 conflictingIds,
       { db1 with memories := sres.1 }, events)

/-- The `DELETE /api/v1/memories/:id` route: always HTTP 200 with
`{ok, deleted}`, emitting `memory.deleted` only for an actual transition. -/
def handleDeleteMemory (p mid : String) (db : Db) :
    (Nat × Bool) × Db × List Event :=
  let existing := db.memories.find? (fun m => m.project_id = p ∧ m.id = mid)
  let r := deleteMemory p mid db.memories
  let events := if r.2 = true ∧ existing.isSome = true
    then [Event.memDeleted mid] else []
  ((200, r.2), { db with memories := r.1 }, events)

/-! ### Claim C10: DELETE /api/v1/memories/:id -/

/-- The C10 statement: the delete route answers 200 for every id, reports
`deleted = true` exactly when a row transitioned from `is_deleted = false`
to `true`, and emits `memory.deleted` only in that case. -/
def DeleteMemoryContract (p mid : String) (db : Db) : Prop :=
  (handleDeleteMemory p mid db).1.1 = 200 ∧
  ((handleDeleteMemory p mid db).1.2 = true ↔
    ∃ m ∈ db.memories, m.project_id = p ∧ m.id = mid ∧ m.is_deleted = false) ∧
  ((handleDeleteMemory p mid db).2.2 = [Event.memDeleted mid] ↔
    (handleDeleteMemory p mid db).1.2 = true) ∧
  ((handleDeleteMemory p mid db).1.2 = false →
    (handleDeleteMemory p mid db).2.2 = []) ∧
  (∀ m ∈ db.memories, ¬(m.project_id = p ∧ m.id = mid ∧ m.is_deleted = false) →
     m ∈ (handleDeleteMemory p mid db).2.1.memories) ∧
  (∀ m ∈ (handleDeleteMemory p mid db).2.1.memories,
     m.project_id = p → m.id = mid → m.is_deleted = true)

/-- C10: `DELETE /api/v1/memories/:id` never returns 404; it responds
`200 {ok, deleted}` with `deleted` true exactly when a row flipped from
`is_deleted=false` to `true`, and `memory.deleted` is emitted only then. -/
theorem claim_C10_delete_never_404 (p mid : String) (db : Db) :
    DeleteMemoryContract p mid db := by
  have hdel : (handleDeleteMemory p mid db).1.2
      = db.memories.any (fun m => m.project_id = p ∧ m.id = mid ∧ m.is_deleted = false) := rfl
  refine ⟨rfl, ?_, ?_, ?_, ?_, ?_⟩
  · rw [hdel, List.any_eq_true]
    constructor
    · rintro ⟨m, hm, hp⟩
      exact ⟨m, hm, of_decide_eq_true hp⟩
    · rintro ⟨m, hm, hp⟩
      exact ⟨m, hm, decide_eq_true hp⟩
  · show (if _ ∧ _ then _ else _) = _ ↔ _
    split
    · rename_i hcond
      simp only [true_iff]
      exact hcond.1
    · rename_i hcond
      constructor
      · intro h
        cases h
      · intro h
        exfalso
        apply hcond
        refine ⟨h, ?_⟩
        rw [hdel, List.any_eq_true] at h
        obtain ⟨m, hm, hp⟩ := h
        have hp' := of_decide_eq_true hp
        rw [List.find?_isSome]
        exact ⟨m, hm, decide_eq_true ⟨hp'.1, hp'.2.1⟩⟩
  · intro h
    show (if _ ∧ _ then _ else _) = _
    rw [if_neg]
    intro hcond
    have h' : (deleteMemory p mid db.memories).2 = false := h
    rw [h'] at hcond
    exact Bool.false_ne_true hcond.1
  · intro m hm hcond
    show m ∈ db.memories.map _
    refine List.mem_map.mpr ⟨m, hm, ?_⟩
    rw [if_neg hcond]
  · intro m hm hp hid
    obtain ⟨a, _, ha⟩ := List.mem_map.mp hm
    by_cases hcond : a.project_id = p ∧ a.id = mid ∧ a.is_deleted = false
    · rw [if_pos hcond] at ha
      rw [← ha]
    · rw [if_neg hcond] at ha
      subst ha
      by_contra hne
      exact hcond ⟨hp, hid, by simpa using hne⟩

/-! ### Claim C6: boundary-exact similarity thresholds -/

/-- Row eligibility shared by both similarity queries. -/
def eligibleMem (p subj : String) (m : MemRow) : Bool :=
  m.project_id = p ∧ m.subject_id = subj ∧ m.is_deleted = false ∧
    m.status = MemStatus.active ∧ m.embedding.isSome = true

/-- The C6 statement: the conflict band really is `[60, 85)` and the
duplicate threshold really is `>= 85`, boundary-exact. -/
def SimilarityBoundary (sim : Vec → Vec → ℚ) (p subj : String) (q : Vec)
    (db : Db) (m : MemRow) : Prop :=
  (∀ r ∈ findConflictingMemories sim p subj q 60 85 50 db, 60 ≤ r.2 ∧ r.2 < 85) ∧
  (simOf sim q m = 85 →
     duplicateCandidate sim p subj q 85 m = true ∧
     (findDuplicateMemory sim p subj q 85 db).isSome = true ∧
     conflictCandidate sim p subj q 60 85 m = false) ∧
  (simOf sim q m = 60 →
     conflictCandidate sim p subj q 60 85 m = true ∧
     m ∈ db.memories.filter (conflictCandidate sim p subj q 60 85))

theorem findConflictingMemories_eq (sim : Vec → Vec → ℚ) (p subj : String)
    {q : Vec} (db : Db) (hq : q ≠ []) :
    findConflictingMemories sim p subj q 60 85 50 db
      = ((sortByGt (fun a b => simOf sim q a > simOf sim q b)
          (db.memories.filter (conflictCandidate sim p subj q 60 85))).take 50).map
        (fun m => (m.id, simOf sim q m)) := by
  unfold findConflictingMemories
  rw [if_neg hq]
  norm_num [clampFloat, clampInt]
  rfl

/-- C6: at memory creation, similarity exactly 85 qualifies as a duplicate
(`>= threshold`), similarity exactly 60 is a conflict candidate, and every
row returned by `findConflictingMemories` lies in the half-open band
`[60, 85)` — so similarity 85 is never a conflict. -/
theorem claim_C6_threshold_boundaries (sim : Vec → Vec → ℚ) (p subj : String)
    (q : Vec) (db : Db) (m : MemRow)
    (hm : m ∈ db.memories) (helig : eligibleMem p subj m = true) (hq : q ≠ []) :
    SimilarityBoundary sim p subj q db m := by
  have he : m.project_id = p ∧ m.subject_id = subj ∧ m.is_deleted = false ∧
      m.status = MemStatus.active ∧ m.embedding.isSome = true := by
    simpa [eligibleMem] using helig
  refine ⟨?_, ?_, ?_⟩
  · intro r hr
    rw [findConflictingMemories_eq sim p subj db hq] at hr
    obtain ⟨m', hm', rfl⟩ := List.mem_map.mp hr
    have hm'' := mem_sortByGt.mp (List.take_subset _ _ hm')
    have hcand : conflictCandidate sim p subj q 60 85 m' = true :=
      (List.mem_filter.mp hm'').2
    have hc : 60 ≤ simOf sim q m' ∧ simOf sim q m' < 85 := by
      have := of_decide_eq_true hcand
      exact ⟨this.2.2.2.2.2.1, this.2.2.2.2.2.2⟩
    exact hc
  · intro h85
    refine ⟨?_, ?_, ?_⟩
    · apply decide_eq_true
      exact ⟨he.1, he.2.1, he.2.2.1, he.2.2.2.1, he.2.2.2.2, by rw [h85]⟩
    · unfold findDuplicateMemory
      rw [if_neg hq]
      have hclamp : clampFloat (some 85) 0 100 85 = 85 := by
        norm_num [clampFloat]
      rw [hclamp]
      have hmem : m ∈ db.memories.filter (duplicateCandidate sim p subj q 85) := by
        rw [List.mem_filter]
        refine ⟨hm, decide_eq_true ?_⟩
        exact ⟨he.1, he.2.1, he.2.2.1, he.2.2.2.1, he.2.2.2.2, by rw [h85]⟩
      rw [Option.isSome_map']
      cases hx : argmaxBy (simOf sim q)
          (db.memories.filter (duplicateCandidate sim p subj q 85)) with
      | none =>
        rw [argmaxBy_eq_none.mp hx] at hmem
        cases hmem
      | some c => rfl
    · apply decide_eq_false
      intro hcontra
      rw [h85] at hcontra
      exact absurd hcontra.2.2.2.2.2.2 (by norm_num)
  · intro h60
    constructor
    · apply decide_eq_true
      refine ⟨he.1, he.2.1, he.2.2.1, he.2.2.2.1, he.2.2.2.2, ?_, ?_⟩
      · rw [h60]
      · rw [h60]
        norm_num
    · rw [List.mem_filter]
      refine ⟨hm, decide_eq_true ?_⟩
      refine ⟨he.1, he.2.1, he.2.2.1, he.2.2.2.1, he.2.2.2.2, ?_, ?_⟩
      · rw [h60]
      · rw [h60]
        norm_num

/-! ### Concrete memory fixtures -/

/-- A constant similarity: every pair of embeddings scores 85. -/
def simConst85 : Vec → Vec → ℚ := fun _ _ => 85

/-- A constant similarity of 70 (inside the conflict band). -/
def simConst70 : Vec → Vec → ℚ := fun _ _ => 70

def memM : MemRow :=
  { id := "mem_1", project_id := "proj", subject_id := "subj",
    text := "My favorite color is yellow", kind := "fact",
    visibility := "private", importance := 50, confidence := 1,
    is_temporal := false, tags := [], embedding := some [1],
    source_type := "explicit", status := .active, superseded_by := none,
    is_deleted := false, created_at := 0 }

def dbM : Db := { Db.empty with memories := [memM] }

/-- Witness for C6 at a concrete store. -/
theorem claim_C6_witness :
    memM ∈ dbM.memories ∧ eligibleMem "proj" "subj" memM = true ∧
      ([1] : Vec) ≠ [] ∧ SimilarityBoundary simConst85 "proj" "subj" [1] dbM memM :=
  ⟨by decide, by decide, by decide,
   claim_C6_threshold_boundaries simConst85 "proj" "subj" [1] dbM memM
     (by decide) (by decide) (by decide)⟩

/-- A POST body with `no_supersede = true`. -/
def bodyNoSup : CreateMemBody :=
  { subject_id := "subj", text := "My favorite color is yellow", kind := none,
    visibility := none, importance := some 50, confidence := some 1,
    is_temporal := false, tags := [], source_type := none, id := none,
    extract_claims := true, no_supersede := true }

/-- Counterexample for C4 as frozen: with `no_supersede = true`, an embedding
present, and an existing memory at similarity 85, the route still performs
the duplicate check, answers the duplicate skip, and creates no row — the
claim predicted no duplicate skip and a new memory row. -/
theorem claim_C4_counterexample :
    (handleCreateMemory simConst85 1 "mem_new" bodyNoSup (some [1]) "proj" dbM).1
        = MemCreateResp.dupSkip ∧
    (handleCreateMemory simConst85 1 "mem_new" bodyNoSup (some [1]) "proj" dbM).2.1.memories
        = [memM] ∧
    (handleCreateMemory simConst85 1 "mem_new" bodyNoSup (some [1]) "proj" dbM).2.2
        = [] := by
  decide

/-! ### Unfolding helpers for the create-memory route -/

theorem createMemory_ok {now : Nat} {input : CreateMemoryInput} {db : Db}
    {row : MemRow} {db' : Db} (h : createMemory now input db = .ok (row, db')) :
    db'.memories = db.memories ++ [row] ∧ row.id = input.id ∧
      row.status = MemStatus.active ∧ row.is_deleted = false ∧
      row.project_id = input.project_id ∧ row.subject_id = input.subject_id ∧
      ∀ m ∈ db.memories, m.id ≠ input.id := by
  unfold createMemory at h
  split at h
  · cases h
  · dsimp only at h
    split at h
    · cases h
    · split at h
      · cases h
      · rename_i hAny _ _
        rw [Except.ok.injEq, Prod.mk.injEq] at h
        obtain ⟨hrow, hdb⟩ := h
        subst hrow
        subst hdb
        refine ⟨rfl, rfl, rfl, rfl, rfl, rfl, ?_⟩
        intro m hm he
        exact hAny (List.any_eq_true.mpr ⟨m, hm, decide_eq_true he⟩)

/-- Unfolding the POST memory route on the path that answers `created`. -/
theorem handleCreateMemory_created {sim : Vec → Vec → ℚ} {now : Nat}
    {genId : String} {body : CreateMemBody} {embedRes : Option Vec}
    {p : String} {db : Db} {rid : String} {cnt : Nat} {ids : List String}
    (hsubj : jsTrim body.subject_id ≠ "") (htext : jsTrim body.text ≠ "")
    (hlen : ¬ (jsTrim body.text).length > 10000)
    (h : (handleCreateMemory sim now genId body embedRes p db).1
        = MemCreateResp.created rid cnt ids) :
    ∃ row db1, createMemory now (createInputOf genId body embedRes p) db
        = .ok (row, db1) ∧
      rid = row.id ∧ ids = conflictIdsOf sim body embedRes p db ∧
      cnt = (if ids ≠ [] then
          supersedeMemories p (jsTrim body.subject_id) ids row.id db1.memories
        else (db1.memories, 0)).2 ∧
      (handleCreateMemory sim now genId body embedRes p db).2.1.memories
        = (if ids ≠ [] then
            supersedeMemories p (jsTrim body.subject_id) ids row.id db1.memories
          else (db1.memories, 0)).1 ∧
      (handleCreateMemory sim now genId body embedRes p db).2.2
        = [Event.memCreated row.id] ++
            (if cnt > 0 then ids.map (fun c => Event.memSuperseded c row.id)
             else []) := by
  unfold handleCreateMemory at h ⊢
  rw [if_neg hsubj, if_neg htext, if_neg hlen] at h ⊢
  split at h
  · cases h
  · rename_i hdup
    rw [if_neg hdup]
    revert h
    cases hcm : createMemory now (createInputOf genId body embedRes p) db with
    | error e =>
      intro h
      cases h
    | ok rdb =>
      intro h
      obtain ⟨row, db1⟩ := rdb
      dsimp only at h ⊢
      rw [MemCreateResp.created.injEq] at h
      obtain ⟨h1, h2, h3⟩ := h
      subst h1
      subst h3
      subst h2
      exact ⟨row, db1, rfl, rfl, rfl, rfl, rfl, rfl⟩

/-! ### Claim C4: the duplicate check is not gated on no_supersede -/

theorem toVectorOpt_some {v : Option Vec} {ev : Vec}
    (h : toVectorOpt v = some ev) : v = some ev ∧ ev ≠ [] := by
  unfold toVectorOpt at h
  cases v with
  | none => cases h
  | some l =>
    dsimp only at h
    split at h
    · cases h
    · rename_i hne
      rw [Option.some.injEq] at h
      subst h
      exact ⟨rfl, hne⟩

/-- The amended C4 statement: the duplicate skip happens exactly when an
embedding is present and `findDuplicateMemory` hits — independently of
`no_supersede` — and `no_supersede=true` disables only conflict collection,
so a non-skipped request creates exactly one new row and emits only
`memory.created`. -/
def CreateMemDupSemantics (sim : Vec → Vec → ℚ) (now : Nat) (genId : String)
    (body : CreateMemBody) (embedRes : Option Vec) (p : String) (db : Db) : Prop :=
  ((handleCreateMemory sim now genId body embedRes p db).1 = MemCreateResp.dupSkip ↔
     ∃ ev, toVectorOpt embedRes = some ev ∧
       (findDuplicateMemory sim p (jsTrim body.subject_id) ev 85 db).isSome = true) ∧
  ((handleCreateMemory sim now genId body embedRes p db).1 = MemCreateResp.dupSkip →
     (handleCreateMemory sim now genId body embedRes p db).2.1 = db ∧
     (handleCreateMemory sim now genId body embedRes p db).2.2 = []) ∧
  (body.no_supersede = true → conflictIdsOf sim body embedRes p db = []) ∧
  (body.no_supersede = true →
     ∀ rid cnt ids, (handleCreateMemory sim now genId body embedRes p db).1
         = MemCreateResp.created rid cnt ids →
       cnt = 0 ∧ ids = [] ∧
       (handleCreateMemory sim now genId body embedRes p db).2.2
         = [Event.memCreated rid] ∧
       ∃ row, (handleCreateMemory sim now genId body embedRes p db).2.1.memories
           = db.memories ++ [row] ∧ row.id = rid ∧ row.status = MemStatus.active)

/-- C4 (amended): the duplicate check runs whenever an embedding is present,
regardless of `no_supersede` (so a `no_supersede=true` request CAN be
answered with the duplicate skip, contrary to the frozen claim);
`no_supersede=true` only empties the conflict set, so a non-skipped request
adds exactly one row and emits only `memory.created`. -/
theorem claim_C4_duplicate_check (sim : Vec → Vec → ℚ) (now : Nat)
    (genId : String) (body : CreateMemBody) (embedRes : Option Vec)
    (p : String) (db : Db)
    (hsubj : jsTrim body.subject_id ≠ "") (htext : jsTrim body.text ≠ "")
    (hlen : ¬ (jsTrim body.text).length > 10000) :
    CreateMemDupSemantics sim now genId body embedRes p db := by
  have hprobe : (dupProbe sim p (jsTrim body.subject_id) embedRes db).isSome = true ↔
      ∃ ev, toVectorOpt embedRes = some ev ∧
        (findDuplicateMemory sim p (jsTrim body.subject_id) ev 85 db).isSome = true := by
    unfold dupProbe
    cases hev : toVectorOpt embedRes with
    | none =>
      simp only [Option.isSome_none]
      constructor
      · intro h
        cases h
      · rintro ⟨ev, hev', -⟩
        cases hev'
    | some ev =>
      constructor
      · intro h
        exact ⟨ev, rfl, h⟩
      · rintro ⟨ev', hev', h⟩
        rw [Option.some.injEq] at hev'
        subst hev'
        exact h
  have hids : body.no_supersede = true → conflictIdsOf sim body embedRes p db = [] := by
    intro hns
    unfold conflictIdsOf
    rw [hns]
    cases toVectorOpt embedRes <;> rfl
  refine ⟨?_, ?_, hids, ?_⟩
  · rw [← hprobe]
    unfold handleCreateMemory
    rw [if_neg hsubj, if_neg htext, if_neg hlen]
    split
    · rename_i hdup
      simp only [true_iff]
      exact hdup
    · rename_i hdup
      constructor
      · intro h
        exfalso
        revert h
        cases createMemory now (createInputOf genId body embedRes p) db with
        | error e =>
          intro h
          cases h
        | ok rdb =>
          obtain ⟨row, db1⟩ := rdb
          intro h
          cases h
      · intro h
        exact absurd h hdup
  · unfold handleCreateMemory
    rw [if_neg hsubj, if_neg htext, if_neg hlen]
    split
    · intro _
      exact ⟨rfl, rfl⟩
    · intro h
      exfalso
      revert h
      cases createMemory now (createInputOf genId body embedRes p) db with
      | error e =>
        intro h
        cases h
      | ok rdb =>
        obtain ⟨row, db1⟩ := rdb
        intro h
        cases h
  · intro hns rid cnt ids h
    obtain ⟨row, db1, hcm, hrid, hids', hcnt, hmem, hev⟩ :=
      handleCreateMemory_created hsubj htext hlen h
    rw [hids hns] at hids'
    subst hids'
    have hok := createMemory_ok hcm
    refine ⟨?_, rfl, ?_, row, ?_, hrid.symm, hok.2.2.1⟩
    · rw [hcnt]
      rfl
    · rw [hev, hcnt]
      rw [hrid]
      rfl
    · rw [hmem]
      show db1.memories = _
      rw [hok.1]

/-- Witness for the amended C4 theorem. -/
theorem claim_C4_witness :
    jsTrim bodyNoSup.subject_id ≠ "" ∧ jsTrim bodyNoSup.text ≠ "" ∧
      ¬ (jsTrim bodyNoSup.text).length > 10000 ∧
      CreateMemDupSemantics simConst85 1 "mem_new" bodyNoSup (some [1]) "proj" dbM :=
  ⟨by decide, by decide, by decide,
   claim_C4_duplicate_check simConst85 1 "mem_new" bodyNoSup (some [1]) "proj" dbM
     (by decide) (by decide) (by decide)⟩

/-! ### Claim C5: memory.superseded events vs. actual transitions -/

theorem eq_of_uniqueMemIds {l : List MemRow}
    (h : l.Pairwise (fun a b => a.id ≠ b.id)) {c d : MemRow}
    (hc : c ∈ l) (hd : d ∈ l) (hid : c.id = d.id) : c = d := by
  by_contra hne
  exact h.forall (fun a b hab => hab.symm) hc hd hne hid

/-- Database hygiene for C5: unique memory ids that are trim-invariant. -/
def MemIdsClean (db : Db) : Prop :=
  db.memories.Pairwise (fun a b => a.id ≠ b.id) ∧
    ∀ m ∈ db.memories, jsTrim m.id = m.id

/-- Every conflicting id collected by the route names an active, non-deleted
row of the pre-state with exactly that id (given trim-invariant ids). -/
theorem conflictIdsOf_spec {sim : Vec → Vec → ℚ} {body : CreateMemBody}
    {embedRes : Option Vec} {p : String} {db : Db}
    (hclean : ∀ m ∈ db.memories, jsTrim m.id = m.id) :
    ∀ x ∈ conflictIdsOf sim body embedRes p db,
      x ≠ "" ∧ ∃ m ∈ db.memories, m.id = x ∧ m.project_id = p ∧
        m.subject_id = jsTrim body.subject_id ∧ m.is_deleted = false ∧
        m.status = MemStatus.active := by
  intro x hx
  unfold conflictIdsOf at hx
  revert hx
  cases hev : toVectorOpt embedRes with
  | none =>
    intro hx
    cases body.no_supersede <;> cases hx
  | some ev =>
    cases hns : body.no_supersede with
    | true =>
      intro hx
      cases hx
    | false =>
      intro hx
      rw [List.mem_filter] at hx
      obtain ⟨hx1, hx2⟩ := hx
      obtain ⟨c, hc, hcx⟩ := List.mem_map.mp hx1
      have hevne : ev ≠ [] := (toVectorOpt_some hev).2
      rw [findConflictingMemories_eq sim p (jsTrim body.subject_id) db hevne] at hc
      obtain ⟨m, hm, hmc⟩ := List.mem_map.mp hc
      have hm' := mem_sortByGt.mp (List.take_subset _ _ hm)
      rw [List.mem_filter] at hm'
      have hcand := of_decide_eq_true hm'.2
      have hidm : c.1 = m.id := by rw [← hmc]
      have hxm : x = m.id := by
        rw [← hcx, hidm, hclean m hm'.1]
      refine ⟨by simpa using hx2, m, hm'.1, hxm.symm, hcand.1, hcand.2.1,
        hcand.2.2.1, hcand.2.2.2.1⟩

theorem conflictIdsOf_trim {sim : Vec → Vec → ℚ} {body : CreateMemBody}
    {embedRes : Option Vec} {p : String} {db : Db}
    (hclean : ∀ m ∈ db.memories, jsTrim m.id = m.id) :
    ((conflictIdsOf sim body embedRes p db).map jsTrim).filter (fun s => s ≠ "")
      = conflictIdsOf sim body embedRes p db := by
  have hfix : ∀ x ∈ conflictIdsOf sim body embedRes p db, jsTrim x = x ∧ x ≠ "" := by
    intro x hx
    obtain ⟨hne, m, hm, hmx, -⟩ := conflictIdsOf_spec hclean x hx
    subst hmx
    exact ⟨hclean m hm, hne⟩
  have hmap : (conflictIdsOf sim body embedRes p db).map jsTrim
      = conflictIdsOf sim body embedRes p db := by
    rw [List.map_congr_left (fun x hx => (hfix x hx).1)]
    exact List.map_id' _
  rw [hmap]
  rw [List.filter_eq_self]
  intro x hx
  exact decide_eq_true (hfix x hx).2

theorem supersedeMemories_eq {p subj : String} {ids : List String}
    (sby : String) (mems : List MemRow)
    (hids : (ids.map jsTrim).filter (fun s => s ≠ "") = ids) (hne : ids ≠ []) :
    supersedeMemories p subj ids sby mems
      = (mems.map (fun m => if supersedeHit p subj ids m then
            { m with status := .superseded, superseded_by := some sby } else m),
         (mems.filter (supersedeHit p subj ids)).length) := by
  unfold supersedeMemories
  rw [hids, if_neg hne]

/-- The C5 statement: a `memory.superseded` event for id `x` is emitted in a
successful create exactly when `x`'s row actually transitioned from active
to superseded (with `superseded_by` the new memory) in that request. -/
def SupersededEventsExact (sim : Vec → Vec → ℚ) (now : Nat) (genId : String)
    (body : CreateMemBody) (embedRes : Option Vec) (p : String) (db : Db) : Prop :=
  ∀ rid cnt ids, (handleCreateMemory sim now genId body embedRes p db).1
      = MemCreateResp.created rid cnt ids →
    ∀ x, Event.memSuperseded x rid
        ∈ (handleCreateMemory sim now genId body embedRes p db).2.2 ↔
      ∃ m ∈ db.memories, m.id = x ∧ m.status = MemStatus.active ∧
        m.is_deleted = false ∧
        ∃ m' ∈ (handleCreateMemory sim now genId body embedRes p db).2.1.memories,
          m'.id = x ∧ m'.status = MemStatus.superseded ∧
          m'.superseded_by = some rid

/-- C5 (amended): under unique, trim-invariant memory ids, the set of ids
receiving a `memory.superseded` event equals the set of conflicting ids
whose row transitioned from active to superseded; without trim-invariance
the route can emit an event for a trimmed id whose row never transitioned
(see the counterexample). -/
theorem claim_C5_superseded_events (sim : Vec → Vec → ℚ) (now : Nat)
    (genId : String) (body : CreateMemBody) (embedRes : Option Vec)
    (p : String) (db : Db) (hclean : MemIdsClean db)
    (hsubj : jsTrim body.subject_id ≠ "") (htext : jsTrim body.text ≠ "")
    (hlen : ¬ (jsTrim body.text).length > 10000) :
    SupersededEventsExact sim now genId body embedRes p db := by
  intro rid cnt ids h x
  obtain ⟨row, db1, hcm, hrid, hids, hcnt, hmem, hev⟩ :=
    handleCreateMemory_created hsubj htext hlen h
  subst hrid
  subst hids
  have hok := createMemory_ok hcm
  by_cases hempty : conflictIdsOf sim body embedRes p db = []
  · -- no conflicts: nothing emitted, nothing transitions
    rw [hempty] at hcnt hmem hev
    have hcnt0 : cnt = 0 := by simpa using hcnt
    have hmem' : (handleCreateMemory sim now genId body embedRes p db).2.1.memories
        = db1.memories := by simpa using hmem
    have hev' : (handleCreateMemory sim now genId body embedRes p db).2.2
        = [Event.memCreated row.id] := by
      rw [hev, hcnt0]
      simp
    rw [hev', hmem']
    constructor
    · intro hin
      simp at hin
    · rintro ⟨m, hm, hmx, hact, -, m', hm', hx', hsup, -⟩
      exfalso
      rw [hok.1] at hm'
      rcases List.mem_append.mp hm' with hold | hnew
      · have := eq_of_uniqueMemIds hclean.1 hm hold (by rw [hmx, hx'])
        rw [← this] at hsup
        rw [hact] at hsup
        cases hsup
      · rw [List.mem_singleton.mp hnew] at hsup
        rw [hok.2.2.1] at hsup
        cases hsup
  · -- conflicts present: every conflicting id transitions and is emitted
    have htrim := @conflictIdsOf_trim sim body embedRes p db hclean.2
    have hsups := @supersedeMemories_eq p (jsTrim body.subject_id)
      (conflictIdsOf sim body embedRes p db) row.id db1.memories htrim hempty
    have hcnt' : cnt = (db1.memories.filter (supersedeHit p (jsTrim body.subject_id)
        (conflictIdsOf sim body embedRes p db))).length := by
      rw [hcnt, if_pos hempty, hsups]
    have hcnt0 : cnt > 0 := by
      rw [hcnt']
      obtain ⟨y, hy⟩ := List.exists_mem_of_ne_nil _ hempty
      obtain ⟨hyne, m, hm, hmy, hmp, hms, hmd, hma⟩ :=
        conflictIdsOf_spec hclean.2 y hy
      have hhit : supersedeHit p (jsTrim body.subject_id)
          (conflictIdsOf sim body embedRes p db) m = true := by
        apply decide_eq_true
        exact ⟨hmp, hms, hmy ▸ hy, hmd, hma⟩
      have hmf : m ∈ db1.memories.filter (supersedeHit p (jsTrim body.subject_id)
          (conflictIdsOf sim body embedRes p db)) := by
        rw [List.mem_filter]
        exact ⟨by rw [hok.1]; exact List.mem_append_left _ hm, hhit⟩
      cases hfl : db1.memories.filter (supersedeHit p (jsTrim body.subject_id)
          (conflictIdsOf sim body embedRes p db)) with
      | nil =>
        rw [hfl] at hmf
        cases hmf
      | cons a as =>
        simp
    have hev' : (handleCreateMemory sim now genId body embedRes p db).2.2
        = [Event.memCreated row.id] ++
            (conflictIdsOf sim body embedRes p db).map
              (fun c => Event.memSuperseded c row.id) := by
      rw [hev, if_pos hcnt0]
    have hmem' : (handleCreateMemory sim now genId body embedRes p db).2.1.memories
        = db1.memories.map (fun m =>
            if supersedeHit p (jsTrim body.subject_id)
                (conflictIdsOf sim body embedRes p db) m then
              { m with status := .superseded, superseded_by := some row.id }
            else m) := by
      rw [hmem, if_pos hempty, hsups]
    rw [hev', hmem']
    constructor
    · -- emitted → transitioned
      intro hin
      rcases List.mem_append.mp hin with hc | hc
      · rw [List.mem_singleton] at hc
        cases hc
      · obtain ⟨y, hy, hyx⟩ := List.mem_map.mp hc
        rw [Event.memSuperseded.injEq] at hyx
        obtain ⟨hyx1, -⟩ := hyx
        rw [hyx1] at hy
        obtain ⟨hyne, m, hm, hmy, hmp, hms, hmd, hma⟩ :=
          conflictIdsOf_spec hclean.2 x hy
        have hhit : supersedeHit p (jsTrim body.subject_id)
            (conflictIdsOf sim body embedRes p db) m = true := by
          apply decide_eq_true
          exact ⟨hmp, hms, hmy ▸ hy, hmd, hma⟩
        refine ⟨m, hm, hmy, hma, hmd, ?_⟩
        refine ⟨{ m with status := .superseded, superseded_by := some row.id }, ?_,
          hmy, rfl, rfl⟩
        refine List.mem_map.mpr ⟨m, by rw [hok.1]; exact List.mem_append_left _ hm, ?_⟩
        rw [if_pos hhit]
    · -- transitioned → emitted
      rintro ⟨m, hm, hmx, hact, hdel, m', hm', hx', hsta, hby⟩
      obtain ⟨a, ha, hga⟩ := List.mem_map.mp hm'
      by_cases hhit : supersedeHit p (jsTrim body.subject_id)
          (conflictIdsOf sim body embedRes p db) a = true
      · rw [if_pos hhit] at hga
        have hax : a.id = x := by rw [← hx', ← hga]
        have hprops := of_decide_eq_true hhit
        refine List.mem_append_right _ (List.mem_map.mpr ⟨x, ?_, rfl⟩)
        rw [← hax]
        exact hprops.2.2.1
      · rw [if_neg hhit] at hga
        subst hga
        exfalso
        rw [hok.1] at ha
        rcases List.mem_append.mp ha with hold | hnew
        · have := eq_of_uniqueMemIds hclean.1 hm hold (by rw [hmx, hx'])
          rw [← this] at hsta
          rw [hact] at hsta
          cases hsta
        · rw [List.mem_singleton.mp hnew] at hsta
          rw [hok.2.2.1] at hsta
          cases hsta

def memCleanA : MemRow := { memM with id := "a" }

/-- A memory whose id carries a trailing space. -/
def memDirtyB : MemRow := { memM with id := "b " }

def dbC5 : Db := { Db.empty with memories := [memCleanA, memDirtyB] }

def bodyC5 : CreateMemBody := { bodyNoSup with no_supersede := false }

/-- Counterexample for C5 as frozen: with conflicting rows of ids `"a"` and
`"b "` (trailing space), the route emits `memory.superseded` for the trimmed
id `"b"` although no row with id `"b"` exists, let alone transitioned — the
emitted set and the transitioned set differ. -/
theorem claim_C5_counterexample :
    (handleCreateMemory simConst70 1 "mem_new" bodyC5 (some [1]) "proj" dbC5).1
        = MemCreateResp.created "mem_new" 1 ["a", "b"] ∧
    Event.memSuperseded "b" "mem_new"
        ∈ (handleCreateMemory simConst70 1 "mem_new" bodyC5 (some [1]) "proj" dbC5).2.2 ∧
    (∀ m ∈ (handleCreateMemory simConst70 1 "mem_new" bodyC5
        (some [1]) "proj" dbC5).2.1.memories,
       ¬(m.id = "b" ∧ m.status = MemStatus.superseded)) := by
  decide

/-- Witness for the amended C5 theorem. -/
theorem claim_C5_witness :
    MemIdsClean dbM ∧ jsTrim bodyC5.subject_id ≠ "" ∧ jsTrim bodyC5.text ≠ "" ∧
      ¬ (jsTrim bodyC5.text).length > 10000 ∧
      SupersededEventsExact simConst70 1 "mem_new" bodyC5 (some [1]) "proj" dbM :=
  ⟨by unfold MemIdsClean; decide, by decide, by decide, by decide,
   claim_C5_superseded_events simConst70 1 "mem_new" bodyC5 (some [1]) "proj" dbM
     (by unfold MemIdsClean; decide) (by decide) (by decide) (by decide)⟩

/-! ### C7: `searchMemories`, branch without a query vector
(PostgresCoreStore.ts lines 223–248, with `buildSearchTokens` and the
`SEARCH_STOP_WORDS` set from the top of the file). -/

/-- SQL `LIKE` matching over character lists, driven by an explicit fuel.
`%` matches any sequence, `_` any single character, every other character
itself.  Every recursive call strictly decreases `pattern.length +
text.length`, so with that sum as initial fuel the first case is reached
only at `[] []`, where it agrees with the fuel-free semantics. -/
def likeGo : Nat → List Char → List Char → Bool
  | 0, p, t => p.isEmpty && t.isEmpty
  | _ + 1, [], t => t.isEmpty
  | n + 1, '%' :: ps, [] => likeGo n ps []
  | n + 1, '%' :: ps, d :: ts => likeGo n ps (d :: ts) || likeGo n ('%' :: ps) ts
  | _ + 1, '_' :: _, [] => false
  | n + 1, '_' :: ps, _ :: ts => likeGo n ps ts
  | _ + 1, _ :: _, [] => false
  | n + 1, c :: ps, d :: ts => c = d && likeGo n ps ts

/-- SQL `LIKE`. -/
def likeMatch (p t : List Char) : Bool := likeGo (p.length + t.length) p t

/-- Postgres `ILIKE`: case-insensitive `LIKE` (ASCII case folding, which is
what `Char.toLower` implements). -/
def ilike (hay pattern : String) : Bool :=
  likeMatch (pattern.data.map Char.toLower) (hay.data.map Char.toLower)

/-- The `SEARCH_STOP_WORDS` set of PostgresCoreStore.ts. -/
def SEARCH_STOP_WORDS : List String :=
  ["a", "an", "and", "are", "as", "at", "be", "but", "by", "does", "for",
   "from", "how", "i", "in", "is", "it", "me", "my", "of", "on", "or",
   "our", "personal", "preference", "preferences", "the", "to", "user",
   "users", "what", "where", "who", "why", "you", "your"]

/-- Accumulator pass splitting a character list on runs of whitespace and
dropping empty pieces: JS `.split(/\s+/).map((v) => v.trim()).filter(Boolean)`
(the pieces carry no whitespace, so the inner `trim` is the identity). -/
def splitWsAux : List Char → List Char → List String
  | [], acc => if acc.isEmpty then [] else [⟨acc.reverse⟩]
  | c :: cs, acc =>
    if isJsWs c then
      if acc.isEmpty then splitWsAux cs [] else ⟨acc.reverse⟩ :: splitWsAux cs []
    else splitWsAux cs (c :: acc)

/-- Split on whitespace runs, keeping only non-empty pieces. -/
def splitWs (l : List Char) : List String := splitWsAux l []

/-- Lower-case letter or digit: what the regex `[^a-z0-9\s]` keeps (besides
whitespace) once the string has been lower-cased. -/
def isLowerAlnum (c : Char) : Bool :=
  ('a' ≤ c ∧ c ≤ 'z') ∨ ('0' ≤ c ∧ c ≤ '9')

/-- `buildSearchTokens` from PostgresCoreStore.ts: lower-case, replace every
character outside `[a-z0-9\s]` with a space, split on whitespace, keep tokens
of length ≥ 2 that are not stop words, de-duplicate keeping first
occurrences, take the first 10. -/
def buildSearchTokens (query : String) : List String :=
  let lowered := query.data.map Char.toLower
  let replaced := lowered.map (fun c => if isLowerAlnum c || isJsWs c then c else ' ')
  let raw := splitWs replaced
  let filtered := raw.filter (fun token => token.length ≥ 2 ∧ token ∉ SEARCH_STOP_WORDS)
  let out := filtered.foldl (fun acc token => if token ∈ acc then acc else acc ++ [token]) []
  out.take 10

/-- The text clause of the no-vector WHERE: empty trimmed query, whole-query
`ILIKE` substring, or some search token `ILIKE` substring. -/
def searchHit (q' : String) (toks : List String) (m : MemRow) : Bool :=
  q' = "" ∨ ilike m.text ("%" ++ q' ++ "%") = true ∨
    toks.any (fun tok => ilike m.text ("%" ++ tok ++ "%")) = true

/-- Full WHERE clause of the no-vector query. -/
def searchEligible (p subj q' : String) (toks : List String) (m : MemRow) : Bool :=
  m.project_id = p ∧ m.subject_id = subj ∧ m.is_deleted = false ∧
    m.status = MemStatus.active ∧ searchHit q' toks m = true

/-- `ORDER BY m.importance DESC, m.created_at DESC`: strict precedence. -/
def memGtKey (a b : MemRow) : Bool :=
  a.importance > b.importance ∨
    (a.importance = b.importance ∧ a.created_at > b.created_at)

/-- `PostgresCoreStore.searchMemories` when `toVectorLiteral` returns null:
each returned row is annotated with `score` (constantly 0) and
`effective_score = 0.25·importance + 0.15·confidence·100`, but the rows are
ordered by `importance DESC, created_at DESC`. -/
def searchMemoriesNoVec (p subj q : String) (limit : Option ℚ) (db : Db) :
    List (MemRow × ℚ × ℚ) :=
  let lim := clampInt limit 1 200 25
  let q' := jsTrim q
  let toks := buildSearchTokens q'
  ((sortByGt memGtKey (db.memories.filter (searchEligible p subj q' toks))).take
      lim.toNat).map
    (fun m => (m, 0, (25/100) * m.importance + (15/100) * m.confidence * 100))

/-- A row with higher importance but effective score `0.25·51 + 0 = 12.75`. -/
def memHi : MemRow :=
  { memM with
    id := "mem_hi"
    text := "pizza is what I cook on Fridays"
    importance := 51
    confidence := 0 }

/-- A row with lower importance but effective score `0.25·50 + 15 = 27.5`. -/
def memLo : MemRow :=
  { memM with
    id := "mem_lo"
    text := "pizza and pasta for lunch"
    importance := 50
    confidence := 1 }

/-- Store holding the two search fixtures. -/
def dbC7 : Db := { Db.empty with memories := [memHi, memLo] }

/-- Counterexample for C7 as frozen: searching "pizza" returns the row with
importance 51 (effective score 12.75) before the row with importance 50
(effective score 27.5), so the rows are not in descending order of
`0.25·importance + 0.15·confidence·100` — the no-vector branch orders by
`importance DESC, created_at DESC` instead. -/
theorem claim_C7_counterexample :
    (searchMemoriesNoVec "proj" "subj" "pizza" (some 10) dbC7).map
        (fun r => (r.1.id, r.2.2))
      = [("mem_hi", (25/100) * (51 : ℚ) + (15/100) * 0 * 100),
         ("mem_lo", (25/100) * (50 : ℚ) + (15/100) * 1 * 100)] ∧
    (25/100) * (51 : ℚ) + (15/100) * 0 * 100 <
      (25/100) * (50 : ℚ) + (15/100) * 1 * 100 := by
  exact ⟨rfl, by norm_num⟩

/-- What the no-vector search branch actually guarantees: every returned row
is a stored, non-deleted, active row of the project/subject that satisfies
the text clause, annotated with score 0 and the effective-score formula;
consecutive rows are ordered by importance and then recency (so not, in
general, by effective score); at most `clampInt(limit,1,200,25)` rows are
returned; and the pre-truncation sorted list holds exactly the eligible
rows. -/
def SearchNoVecContract (p subj q : String) (limit : Option ℚ) (db : Db) : Prop :=
  (∀ r ∈ searchMemoriesNoVec p subj q limit db,
      r.1 ∈ db.memories ∧
        searchEligible p subj (jsTrim q) (buildSearchTokens (jsTrim q)) r.1 = true ∧
        r.2.1 = 0 ∧
        r.2.2 = (25/100) * r.1.importance + (15/100) * r.1.confidence * 100) ∧
  List.Chain'
    (fun a b => a.1.importance > b.1.importance ∨
      (a.1.importance = b.1.importance ∧ a.1.created_at ≥ b.1.created_at))
    (searchMemoriesNoVec p subj q limit db) ∧
  (searchMemoriesNoVec p subj q limit db).length ≤ (clampInt limit 1 200 25).toNat ∧
  (∀ m : MemRow,
      m ∈ sortByGt memGtKey
          (db.memories.filter
            (searchEligible p subj (jsTrim q) (buildSearchTokens (jsTrim q)))) ↔
        m ∈ db.memories ∧
          searchEligible p subj (jsTrim q) (buildSearchTokens (jsTrim q)) m = true)

/-- C7, amended: the no-vector search branch meets `SearchNoVecContract` —
eligibility is by the substring clause (or an empty trimmed query), but the
ranking is `importance DESC, created_at DESC`, not descending effective
score. -/
theorem claim_C7_search_ranking (p subj q : String) (limit : Option ℚ) (db : Db) :
    SearchNoVecContract p subj q limit db := by
  have hasym : ∀ a b : MemRow, memGtKey a b = true → memGtKey b a = false := by
    intro a b
    simp only [memGtKey, decide_eq_true_eq, decide_eq_false_iff_not]
    intro hab
    push_neg
    rcases hab with h | ⟨h1, h2⟩
    · exact ⟨le_of_lt h, fun he => by rw [he] at h; exact absurd h (lt_irrefl _)⟩
    · exact ⟨le_of_eq h1.symm, fun _ => le_of_lt h2⟩
  unfold SearchNoVecContract
  refine ⟨?_, ?_, ?_, ?_⟩
  · intro r hr
    simp only [searchMemoriesNoVec, List.mem_map] at hr
    obtain ⟨m, hm, rfl⟩ := hr
    have hm' := List.mem_of_mem_take hm
    rw [mem_sortByGt, List.mem_filter] at hm'
    exact ⟨hm'.1, hm'.2, rfl, rfl⟩
  · have hchain := chain_sortByGt hasym
      (db.memories.filter
        (searchEligible p subj (jsTrim q) (buildSearchTokens (jsTrim q))))
    simp only [searchMemoriesNoVec]
    rw [List.chain'_map]
    refine List.Chain'.imp ?_ (hchain.take _)
    intro a b h
    simp only [memGtKey, decide_eq_false_iff_not] at h
    push_neg at h
    rcases lt_or_eq_of_le h.1 with hlt | heq
    · exact Or.inl hlt
    · exact Or.inr ⟨heq.symm, h.2 heq⟩
  · simp only [searchMemoriesNoVec, List.length_map]
    exact le_trans (le_of_eq (List.length_take _ _)) (min_le_left _ _)
  · intro m
    rw [mem_sortByGt, List.mem_filter]

/-! ### C8: `rerankMemories` (recallService.ts lines 147–208)
The LLM call is abstracted as an outcome: either the call throws
(`failure`) or it returns a parsed `ranked` array.  A ranked entry's
`index` is an integer (`Number.isInteger` filters the rest out before any
comparison), `score` is `none` when `Number(item.score)` is not finite
(`scoreNum` then falls back). -/

/-- The fields of `ScoredMemory` that `rerankMemories` reads or writes
(`{...base}` keeps everything else unchanged, so the rest is summarised by
`id`). -/
structure ScoredMemory where
  id : String
  text : String
  score : ℚ
  effective_score : ℚ
deriving DecidableEq, Repr

/-- One entry of the LLM's `ranked` array. -/
structure RankedEntry where
  index : ℤ
  relevant : Bool
  score : Option ℚ
deriving DecidableEq, Repr

/-- Outcome of the rerank LLM call. -/
inductive LlmOutcome
  | failure
  | success (ranked : List RankedEntry)
deriving DecidableEq, Repr

/-- `scoreNum(v, fallback)`: fallback when `Number(v)` is not finite. -/
def scoreNum (v : Option ℚ) (fallback : ℚ) : ℚ := v.getD fallback

/-- The final per-winner update: spread the base candidate, raising `score`
and `effective_score` to at least the rerank score. -/
def rerankApply (base : ScoredMemory) (rerankScore : ℚ) : ScoredMemory :=
  { base with
    score := max base.score rerankScore
    effective_score := max base.effective_score rerankScore }

/-- The `selected` accumulation loop: keep `(idx, scoreNum(score, 0.5))` for
entries with an in-range index and `relevant === true`, in `ranked` order. -/
def rerankSelectedCode (ranked : List RankedEntry) (flen : Nat) : List (Nat × ℚ) :=
  ranked.filterMap (fun item =>
    if 0 ≤ item.index ∧ item.index.toNat < flen then
      if item.relevant = true then some (item.index.toNat, scoreNum item.score (1/2))
      else none
    else none)

/-- The same selection written as the spec reads: keep the `relevant=true`
entries whose index lands in the filtered array, then project. -/
def rerankSelectedSpec (ranked : List RankedEntry) (flen : Nat) : List (Nat × ℚ) :=
  (ranked.filter (fun item =>
      item.relevant = true ∧ 0 ≤ item.index ∧ item.index.toNat < flen)).map
    (fun item => (item.index.toNat, scoreNum item.score (1/2)))

/-- Sort the selected pairs by score descending (stable), truncate to
`topK`, and map each winner through `rerankApply` against the filtered
candidate it indexes. -/
def rerankFinish (filtered : List ScoredMemory) (selected : List (Nat × ℚ))
    (topK : Nat) : List ScoredMemory :=
  ((sortByGt (fun a b => a.2 > b.2) selected).take topK).map
    (fun row => rerankApply (filtered.getD row.1 ⟨"", "", 0, 0⟩) (row.2 * 100))

/-- `rerankMemories` from recallService.ts. -/
def rerankMemories (llm : LlmOutcome) (candidates : List ScoredMemory)
    (topK : Nat) : List ScoredMemory :=
  if candidates = [] then []
  else
    let filtered := candidates.filter (fun m => (jsTrim m.text).length ≥ 10)
    if filtered = [] then []
    else if filtered.length ≤ topK then filtered
    else
      match llm with
      | .failure => filtered.take topK
      | .success ranked =>
        let selected := rerankSelectedCode ranked filtered.length
        if selected = [] then [] else rerankFinish filtered selected topK

/-- The rerank step as C8 words it: out-of-range indexes are clamped into
the filtered array instead of dropped. -/
def rerankSpecClamped (llm : LlmOutcome) (candidates : List ScoredMemory)
    (topK : Nat) : List ScoredMemory :=
  let filtered := candidates.filter (fun m => (jsTrim m.text).length ≥ 10)
  if filtered.length ≤ topK then filtered
  else
    match llm with
    | .failure => filtered.take topK
    | .success ranked =>
      rerankFinish filtered
        ((ranked.filter (fun item => item.relevant = true)).map
          (fun item =>
            (min (max item.index 0).toNat (filtered.length - 1),
             scoreNum item.score (1/2)))) topK

/-- The rerank step with the amended selection: entries whose index falls
outside the filtered array are dropped, not clamped. -/
def rerankSpecDropped (llm : LlmOutcome) (candidates : List ScoredMemory)
    (topK : Nat) : List ScoredMemory :=
  let filtered := candidates.filter (fun m => (jsTrim m.text).length ≥ 10)
  if filtered.length ≤ topK then filtered
  else
    match llm with
    | .failure => filtered.take topK
    | .success ranked => rerankFinish filtered (rerankSelectedSpec ranked filtered.length) topK

theorem rerankSelected_eq (ranked : List RankedEntry) (flen : Nat) :
    rerankSelectedCode ranked flen = rerankSelectedSpec ranked flen := by
  induction ranked with
  | nil => rfl
  | cons item rest ih =>
    rw [rerankSelectedCode, List.filterMap_cons, rerankSelectedSpec, List.filter_cons]
    by_cases hrange : 0 ≤ item.index ∧ item.index.toNat < flen
    · by_cases hrel : item.relevant = true
      · have hd : (decide (item.relevant = true ∧ 0 ≤ item.index ∧
            item.index.toNat < flen)) = true := by
          rw [decide_eq_true_eq]
          exact ⟨hrel, hrange.1, hrange.2⟩
        rw [if_pos hrange, if_pos hrel, if_pos hd, List.map_cons]
        dsimp only
        congr 1
      · have hd : ¬ (decide (item.relevant = true ∧ 0 ≤ item.index ∧
            item.index.toNat < flen)) = true := by
          rw [decide_eq_true_eq]
          intro hcond
          exact hrel hcond.1
        rw [if_pos hrange, if_neg hrel, if_neg hd]
        exact ih
    · have hd : ¬ (decide (item.relevant = true ∧ 0 ≤ item.index ∧
          item.index.toNat < flen)) = true := by
        rw [decide_eq_true_eq]
        intro hcond
        exact hrange hcond.2
      rw [if_neg hrange, if_neg hd]
      exact ih

/-- C8, amended: `rerankMemories` equals the spec-shaped pipeline in which a
returned index outside the filtered array causes the entry to be dropped
(the clamping the claim describes does not happen); everything else —
length-≥10 filter, pass-through at ≤ topK, stable descending sort,
truncation, max-update with `rerank·100`, first-topK on failure — is as
claimed. -/
theorem claim_C8_rerank (llm : LlmOutcome) (candidates : List ScoredMemory)
    (topK : Nat) :
    rerankMemories llm candidates topK = rerankSpecDropped llm candidates topK := by
  by_cases hc : candidates = []
  · subst hc
    simp [rerankMemories, rerankSpecDropped, List.filter_nil]
  · simp only [rerankMemories, rerankSpecDropped, if_neg hc]
    by_cases hfe : candidates.filter (fun m => (jsTrim m.text).length ≥ 10) = []
    · rw [if_pos hfe, hfe]
      simp
    · rw [if_neg hfe]
      by_cases hlen : (candidates.filter (fun m => (jsTrim m.text).length ≥ 10)).length ≤ topK
      · rw [if_pos hlen, if_pos hlen]
      · rw [if_neg hlen, if_neg hlen]
        cases llm with
        | failure => rfl
        | success ranked =>
          dsimp only
          rw [rerankSelected_eq]
          by_cases hsel : rerankSelectedSpec ranked
              (candidates.filter (fun m => (jsTrim m.text).length ≥ 10)).length = []
          · rw [if_pos hsel, hsel]
            simp [rerankFinish, sortByGt]
          · rw [if_neg hsel]

/-- Candidates for the C8 counterexample (texts all ≥ 10 characters). -/
def candA : ScoredMemory := ⟨"c1", "alpha memory text", 10, 10⟩

def candB : ScoredMemory := ⟨"c2", "beta memory text!", 20, 20⟩

def candC : ScoredMemory := ⟨"c3", "gamma memory text", 30, 30⟩

/-- Counterexample for C8 as frozen: three candidates survive the length
filter, topK = 2 forces the LLM path, and the LLM answers a single relevant
entry with index 5.  The code drops the out-of-range index and returns no
memories at all, while the clamped pipeline the claim describes returns
one. -/
theorem claim_C8_counterexample :
    rerankMemories (.success [⟨5, true, some 1⟩]) [candA, candB, candC] 2 = [] ∧
      (rerankSpecClamped (.success [⟨5, true, some 1⟩]) [candA, candB, candC] 2).length
        = 1 := by
  exact ⟨rfl, rfl⟩

/-! ### C9: the heuristic extraction variant (`simpleExtract` and
`buildSimpleClaims` from the extraction service).  The five regex patterns
are modelled as explicit backtracking searches with JS semantics: leftmost
match, greedy quantifiers with ordered backtracking, case-insensitive
literals, captures taken from the original-case text. -/

/-- Replace each run of characters satisfying `p` by the single character
`r` (the state records whether the previous character was in a run):
`.replace(/RUN+/g, r)`. -/
def collapseRuns (p : Char → Bool) (r : Char) : Bool → List Char → List Char
  | _, [] => []
  | inRun, c :: cs =>
    if p c then
      if inRun then collapseRuns p r true cs else r :: collapseRuns p r true cs
    else c :: collapseRuns p r false cs

/-- Collapse every whitespace run to a single space:
`.replace(/\s+/g, " ")`. -/
def collapseWs (l : List Char) : List Char := collapseRuns isJsWs ' ' false l

/-- `String(text||"").trim().replace(/\s+/g, " ")`. -/
def normText (s : String) : String := ⟨collapseWs (jsTrim s).data⟩

/-- Collapse every run of spaces to a single underscore:
`.replace(/\s+/g, "_")` on a string whose only whitespace is `' '`. -/
def collapseSpaceUnderscore (l : List Char) : List Char :=
  collapseRuns (fun d => d = ' ') '_' false l

/-- `normalizePredicate`: lower-case, delete everything outside
`[a-z0-9_ ]`, trim, then turn space runs into underscores (after the
deletion the only remaining whitespace is `' '`). -/
def normalizePredicate (raw : String) : String :=
  let kept := (raw.data.map Char.toLower).filter
    (fun c => isLowerAlnum c || c = '_' || c = ' ')
  ⟨collapseSpaceUnderscore (jsTrim ⟨kept⟩).data⟩

/-- The character class `[.,!?\n]` that ends a value capture. -/
def isStopChar (c : Char) : Bool :=
  c = '.' ∨ c = ',' ∨ c = '!' ∨ c = '?' ∨ c = '\n'

/-- Letters and space: the class `[a-zA-Z ]` of the favorite pattern. -/
def isAlphaSpace (c : Char) : Bool :=
  ('a' ≤ c ∧ c ≤ 'z') ∨ ('A' ≤ c ∧ c ≤ 'Z') ∨ c = ' '

/-- Length of the leading whitespace run. -/
def wsRunLen (l : List Char) : Nat := (l.takeWhile isJsWs).length

/-- Try `f n, f (n-1), …, f 1` and return the first defined answer: ordered
backtracking for one greedy quantifier (`n` is its maximal extent). -/
def firstSomeDesc {α : Type} (n : Nat) (f : Nat → Option α) : Option α :=
  match n with
  | 0 => none
  | k + 1 =>
    match f (k + 1) with
    | some a => some a
    | none => firstSomeDesc k f

/-- Match `/lit\s+([^.,!?\n]+)/i` anchored at the head of `l`: the literal
case-insensitively, then a greedy whitespace run tried longest first, then
a non-empty greedy capture. -/
def litCaptureAt (lit : String) (l : List Char) : Option String :=
  if (l.take lit.length).map Char.toLower = lit.data.map Char.toLower then
    let rest := l.drop lit.length
    firstSomeDesc (wsRunLen rest) (fun k =>
      let cap := (rest.drop k).takeWhile (fun c => ¬ isStopChar c)
      if cap = [] then none else some ⟨cap⟩)
  else none

/-- Leftmost match of `/lit\s+([^.,!?\n]+)/i` in the text. -/
def findLitCapture (lit : String) : List Char → Option String
  | [] => none
  | c :: cs =>
    match litCaptureAt lit (c :: cs) with
    | some v => some v
    | none => findLitCapture lit cs

/-- Match `/my favorite\s+([a-zA-Z ]+)\s+is\s+([^.,!?\n]+)/i` anchored at
the head of `l`, with the regex backtracking order: each greedy component
tries its longest extent first, inner components backtracking before outer
ones. -/
def favoriteAt (l : List Char) : Option (String × String) :=
  if (l.take 11).map Char.toLower = "my favorite".data then
    let rest := l.drop 11
    firstSomeDesc (wsRunLen rest) (fun a =>
      let r1 := rest.drop a
      firstSomeDesc (r1.takeWhile isAlphaSpace).length (fun len1 =>
        let cap1 := r1.take len1
        let r2 := r1.drop len1
        firstSomeDesc (wsRunLen r2) (fun b =>
          let r3 := r2.drop b
          if (r3.take 2).map Char.toLower = ['i', 's'] then
            let r4 := r3.drop 2
            firstSomeDesc (wsRunLen r4) (fun k =>
              let cap2 := (r4.drop k).takeWhile (fun c => ¬ isStopChar c)
              if cap2 = [] then none else some (⟨cap1⟩, ⟨cap2⟩))
          else none)))
  else none

/-- Leftmost match of the favorite pattern. -/
def findFavorite : List Char → Option (String × String)
  | [] => none
  | c :: cs =>
    match favoriteAt (c :: cs) with
    | some v => some v
    | none => findFavorite cs

/-- An extracted claim (the heuristic path always sets all four fields). -/
structure SimpleClaim where
  predicate : String
  object_value : String
  claim_type : String
  confidence : ℚ
deriving DecidableEq, Repr

/-- The de-duplication key `` `${p}::${v.toLowerCase()}` ``. -/
def claimKey (p v : String) : String := p ++ "::" ++ ⟨v.data.map Char.toLower⟩

/-- The `push` closure of `buildSimpleClaims`: normalize the predicate,
trim the value, skip when either is empty or the key is already present,
otherwise append. -/
def pushClaim (claims : List SimpleClaim) (predicate value claimType : String)
    (confidence : ℚ) : List SimpleClaim :=
  let p := normalizePredicate predicate
  let v := jsTrim value
  if p = "" ∨ v = "" then claims
  else if claims.any (fun c => claimKey c.predicate c.object_value = claimKey p v)
    then claims
  else claims ++ [⟨p, v, claimType, confidence⟩]

/-- The five patterns of `buildSimpleClaims`, in order, each paired with
the push arguments its handler uses (0.85 = 85/100, 0.9 = 9/10, 0.7 =
7/10). -/
def simplePatterns (text : String) : List (Option (String × String × String × ℚ)) :=
  [(findLitCapture "my name is" text.data).map
      (fun v => ("name", v, "fact", (9/10 : ℚ))),
   (findLitCapture "i live in" text.data).map
      (fun v => ("lives_in", v, "fact", (85/100 : ℚ))),
   (findLitCapture "i work at" text.data).map
      (fun v => ("works_at", v, "fact", (85/100 : ℚ))),
   (findFavorite text.data).map
      (fun m => ("favorite_" ++ m.1, m.2, "preference", (85/100 : ℚ))),
   (findLitCapture "i like" text.data).map
      (fun v => ("likes", v, "preference", (7/10 : ℚ)))]

/-- `buildSimpleClaims`: run the patterns in order, pushing each match. -/
def buildSimpleClaims (text : String) : List SimpleClaim :=
  (simplePatterns text).foldl
    (fun acc item =>
      match item with
      | none => acc
      | some (p, v, ct, conf) => pushClaim acc p v ct conf) []

/-- The greeting/acknowledgement alternatives of the trivial-input regex. -/
def greetingAlts : List String :=
  ["ok", "thanks", "thank you", "cool", "nice", "yes", "no", "yep", "nope",
   "hi", "hello", "hey"]

/-- JS word character (`\w`), deciding the `\b` boundary. -/
def isWordChar (c : Char) : Bool :=
  isLowerAlnum c ∨ ('A' ≤ c ∧ c ≤ 'Z') ∨ c = '_'

/-- `/^(ok|thanks|…|hey)\b/.test(lower)`: some alternative is a prefix and
the character after it (if any) is not a word character (every alternative
ends in a word character, so that is the whole `\b` test). -/
def trivialGreeting (lower : List Char) : Bool :=
  greetingAlts.any (fun g =>
    lower.take g.length = g.data ∧
      (match lower.drop g.length with
       | [] => true
       | c :: _ => ¬ isWordChar c) = true)

/-- One extracted memory of the heuristic path. -/
structure SimpleMemory where
  text : String
  kind : String
  importance : ℚ
  confidence : ℚ
  is_temporal : Bool
  visibility : String
  tags : List String
  claims : List SimpleClaim
deriving DecidableEq, Repr

/-- `simpleExtract` (the returned `memories` array).  String `.length` and
`.slice` count UTF-16 units; over the code points modelled here they
coincide for the basic plane. -/
def simpleExtract (text : String) (force : Bool) : List SimpleMemory :=
  let t := normText text
  if t = "" then []
  else
    let lower := t.data.map Char.toLower
    let trivial := trivialGreeting lower && decide (t.length < 40)
    if trivial && !force then []
    else
      let claims := buildSimpleClaims t
      [{ text := ⟨t.data.take 2000⟩
         kind := if claims.length > 0 then "fact" else "note"
         importance := if force then 70 else 50
         confidence := if claims.length > 0 then (3/4) else (3/5)
         is_temporal := false
         visibility := "private"
         tags := ["simple_mode"]
         claims := claims }]

theorem pushClaim_pairwise {claims : List SimpleClaim}
    (h : List.Pairwise (fun c d => claimKey c.predicate c.object_value ≠
        claimKey d.predicate d.object_value) claims)
    (predicate value claimType : String) (confidence : ℚ) :
    List.Pairwise (fun c d => claimKey c.predicate c.object_value ≠
        claimKey d.predicate d.object_value)
      (pushClaim claims predicate value claimType confidence) := by
  simp only [pushClaim]
  by_cases h1 : normalizePredicate predicate = "" ∨ jsTrim value = ""
  · rw [if_pos h1]
    exact h
  · rw [if_neg h1]
    by_cases h2 : (claims.any (fun c => claimKey c.predicate c.object_value =
        claimKey (normalizePredicate predicate) (jsTrim value))) = true
    · rw [if_pos h2]
      exact h
    · rw [if_neg h2]
      rw [List.pairwise_append]
      refine ⟨h, List.pairwise_singleton _ _, ?_⟩
      intro c hc d hd
      simp only [List.mem_singleton] at hd
      subst hd
      intro heq
      apply h2
      rw [List.any_eq_true]
      exact ⟨c, hc, decide_eq_true heq⟩

theorem buildSimpleClaims_pairwise (text : String) :
    List.Pairwise (fun c d => claimKey c.predicate c.object_value ≠
        claimKey d.predicate d.object_value) (buildSimpleClaims text) := by
  unfold buildSimpleClaims
  generalize simplePatterns text = items
  suffices h : ∀ (items : List (Option (String × String × String × ℚ)))
      (acc : List SimpleClaim),
      List.Pairwise (fun c d => claimKey c.predicate c.object_value ≠
        claimKey d.predicate d.object_value) acc →
      List.Pairwise (fun c d => claimKey c.predicate c.object_value ≠
        claimKey d.predicate d.object_value)
        (items.foldl
          (fun acc item =>
            match item with
            | none => acc
            | some (p, v, ct, conf) => pushClaim acc p v ct conf) acc) by
    exact h items [] List.Pairwise.nil
  intro items
  induction items with
  | nil =>
    intro acc hacc
    exact hacc
  | cons it rest ih =>
    intro acc hacc
    simp only [List.foldl_cons]
    cases it with
    | none => exact ih acc hacc
    | some q =>
      obtain ⟨p, v, ct, conf⟩ := q
      exact ih _ (pushClaim_pairwise hacc p v ct conf)

/-- What the heuristic extraction actually guarantees, per input: the
output is empty exactly when the normalized text is empty or the trivial
gate fires (greeting prefix, length < 40 and `force=false`); otherwise it
is one memory carrying the normalized text truncated to 2000 characters,
the regex-derived claims (key-wise pairwise distinct), kind `fact` exactly
when a claim was derived, and the fixed importance/confidence/tag values. -/
def SimpleExtractContract (text : String) (force : Bool) : Prop :=
  (simpleExtract text force = [] ↔
     (normText text = "" ∨
       (trivialGreeting ((normText text).data.map Char.toLower) = true ∧
         (normText text).length < 40 ∧ force = false))) ∧
  (simpleExtract text force).length ≤ 1 ∧
  (∀ mem ∈ simpleExtract text force,
      mem.text = ⟨(normText text).data.take 2000⟩ ∧
      mem.claims = buildSimpleClaims (normText text) ∧
      (mem.kind = "fact" ↔ mem.claims ≠ []) ∧
      (mem.claims = [] → mem.kind = "note") ∧
      mem.importance = (if force then (70 : ℚ) else 50) ∧
      mem.confidence = (if mem.claims ≠ [] then (3/4 : ℚ) else 3/5) ∧
      mem.is_temporal = false ∧
      mem.visibility = "private" ∧
      mem.tags = ["simple_mode"] ∧
      List.Pairwise (fun c d => claimKey c.predicate c.object_value ≠
        claimKey d.predicate d.object_value) mem.claims)

/-- C9, amended: `simpleExtract` meets `SimpleExtractContract` — in
particular the output is also empty whenever the input normalizes to the
empty string, a case the claim's "otherwise exactly one memory" misses. -/
theorem claim_C9_simple_extract (text : String) (force : Bool) :
    SimpleExtractContract text force := by
  unfold SimpleExtractContract
  by_cases ht : normText text = ""
  · have hout : simpleExtract text force = [] := by
      unfold simpleExtract
      rw [if_pos ht]
    rw [hout]
    refine ⟨?_, by simp, by simp⟩
    simp [ht]
  · by_cases htriv : ((trivialGreeting ((normText text).data.map Char.toLower)
        && decide ((normText text).length < 40)) && !force) = true
    · have hout : simpleExtract text force = [] := by
        unfold simpleExtract
        rw [if_neg ht, if_pos htriv]
      rw [hout]
      refine ⟨?_, by simp, by simp⟩
      have htriv' := htriv
      rw [Bool.and_eq_true, Bool.and_eq_true] at htriv'
      obtain ⟨⟨hg, hlen⟩, hnf⟩ := htriv'
      refine iff_of_true rfl (Or.inr ⟨hg, of_decide_eq_true hlen, ?_⟩)
      cases force with
      | false => rfl
      | true => simp at hnf
    · have hout : simpleExtract text force =
          [{ text := ⟨(normText text).data.take 2000⟩
             kind := if (buildSimpleClaims (normText text)).length > 0
               then "fact" else "note"
             importance := if force then 70 else 50
             confidence := if (buildSimpleClaims (normText text)).length > 0
               then (3/4) else (3/5)
             is_temporal := false
             visibility := "private"
             tags := ["simple_mode"]
             claims := buildSimpleClaims (normText text) }] := by
        unfold simpleExtract
        rw [if_neg ht, if_neg htriv]
      rw [hout]
      refine ⟨?_, by simp, ?_⟩
      · refine iff_of_false (by simp) ?_
        rintro (hl | ⟨h1, h2, h3⟩)
        · exact ht hl
        · exact htriv (by rw [h1, h3, decide_eq_true h2]; rfl)
      · intro mem hmem
        simp only [List.mem_singleton] at hmem
        subst hmem
        refine ⟨rfl, rfl, ?_, ?_, rfl, ?_, rfl, rfl, rfl,
          buildSimpleClaims_pairwise (normText text)⟩
        · show (if (buildSimpleClaims (normText text)).length > 0
              then "fact" else "note") = "fact" ↔
            buildSimpleClaims (normText text) ≠ []
          cases hcl : buildSimpleClaims (normText text) with
          | nil => decide
          | cons c0 cs0 => simp
        · show buildSimpleClaims (normText text) = [] →
            (if (buildSimpleClaims (normText text)).length > 0
              then "fact" else "note") = "note"
          intro hcl
          rw [hcl]
          decide
        · show (if (buildSimpleClaims (normText text)).length > 0
              then (3/4 : ℚ) else 3/5) =
            (if buildSimpleClaims (normText text) ≠ [] then (3/4 : ℚ) else 3/5)
          cases hcl : buildSimpleClaims (normText text) with
          | nil => simp
          | cons c0 cs0 => simp

/-- Counterexample for C9 as frozen: on input `""` (or any all-whitespace
input) the trivial-gate condition is false — no greeting alternative
matches the empty normalized text — yet the function returns no memory at
all, where the claim's "otherwise" case promises exactly one. -/
theorem claim_C9_counterexample :
    simpleExtract "" false = [] ∧
      trivialGreeting ((normText "").data.map Char.toLower) = false := by
  exact ⟨rfl, rfl⟩

end MnxCore
